import Mathlib

/-!
Verification of the salt-monitor task compiler and runtime
(src/salt/ext/monitor/parsers/yaml.py, src/salt/ext/monitor/task.py).

The Python source lowers each catalog entry to generated Python source
text and `exec`s it each iteration.  The embedding mirrors the compiler
(`Parser._expand_*`) as functions producing an executable plan whose
constructors are in one-to-one correspondence with the generated code
shapes, and gives the generated code's semantics as an interpreter over
an explicit context (the `self.context` dictionary).  Machine-level
details that the claims do not touch (wall-clock time, threading,
logging output) are not modelled; Python exceptions are modelled by an
error type threaded through `Except`.
-/

namespace SaltMonitor

/-- Python exception kinds that the modelled code can raise. -/
inductive PyErr where
  | valueError (msg : String)
  | keyError (key : String)
  | nameError (name : String)
  | attributeError (attr : String)
  | typeError (msg : String)
  | indexError
deriving DecidableEq, Repr

/-- YAML data as handed to the compiler (the parsed catalog). -/
inductive Yaml where
  | ynull
  | ystr (s : String)
  | ynum (q : ℚ)
  | ylist (xs : List Yaml)
  | ymap (entries : List (String × Yaml))

/-- Python runtime values flowing through a task's context.
`vattrdict` is the source's `AttrDict` wrapper (a `dict` subclass). -/
inductive Value where
  | vnone
  | vbool (b : Bool)
  | vint (n : Int)
  | vstr (s : String)
  | vlist (xs : List Value)
  | vset (xs : List Value)
  | vdict (entries : List (String × Value))
  | vattrdict (entries : List (String × Value))

open Value

/- Characters written via code points so that brace and quote characters
never appear literally: 123 = left brace, 125 = right brace,
39 = single quote, 34 = double quote, 1 and 2 = the markers the source
uses to invisibly escape braces. -/
def obChar : Char := Char.ofNat 123
def cbChar : Char := Char.ofNat 125
def sqChar : Char := Char.ofNat 39
def dqChar : Char := Char.ofNat 34
def m1Char : Char := Char.ofNat 1
def m2Char : Char := Char.ofNat 2

/-- Python `repr` escape for one character (common escapes only). -/
def reprEscChar (c : Char) : List Char :=
  if c = '\\' then ['\\', '\\']
  else if c = '\n' then ['\\', 'n']
  else if c = '\t' then ['\\', 't']
  else if c = '\r' then ['\\', 'r']
  else [c]

/-- Python `repr` of a string: double-quoted when it contains a single
quote but no double quote, else single-quoted with quotes escaped. -/
def pyReprStr (s : String) : String :=
  let cs := s.toList
  if cs.contains sqChar ∧ ¬ cs.contains dqChar then
    String.mk (dqChar :: (cs.map reprEscChar).flatten ++ [dqChar])
  else
    String.mk (sqChar ::
      (cs.map (fun c => if c = sqChar then ['\\', sqChar] else reprEscChar c)).flatten
      ++ [sqChar])

mutual

/-- Python container printing (Python 2's `str` of a container equals
its `repr`; elements print as their reprs). -/
def pyStrDeep : Value → String
  | .vnone => "None"
  | .vbool true => "True"
  | .vbool false => "False"
  | .vint n => toString n
  | .vstr s => s
  | .vlist xs => "[" ++ String.intercalate ", " (pyReprList xs) ++ "]"
  | .vset xs => "set([" ++ String.intercalate ", " (pyReprList xs) ++ "])"
  | .vdict es =>
      String.mk [obChar] ++ String.intercalate ", " (pyReprPairs es) ++ String.mk [cbChar]
  | .vattrdict es =>
      String.mk [obChar] ++ String.intercalate ", " (pyReprPairs es) ++ String.mk [cbChar]

/-- Python `repr()` of a value. -/
def pyReprV : Value → String
  | .vstr s => pyReprStr s
  | v => pyStrDeep v

def pyReprList : List Value → List String
  | [] => []
  | v :: vs => pyReprV v :: pyReprList vs

def pyReprPairs : List (String × Value) → List String
  | [] => []
  | (k, v) :: es => (pyReprStr k ++ ": " ++ pyReprV v) :: pyReprPairs es

end

/-- Python `str()` of a value. -/
def pyStr : Value → String
  | .vnone => "None"
  | .vbool true => "True"
  | .vbool false => "False"
  | .vint n => toString n
  | .vstr s => s
  | v => pyStrDeep v

/-- Python truthiness. -/
def pyTruthy : Value → Bool
  | .vnone => false
  | .vbool b => b
  | .vint n => n ≠ 0
  | .vstr s => s ≠ ""
  | .vlist xs => ¬ xs.isEmpty
  | .vset xs => ¬ xs.isEmpty
  | .vdict es => ¬ es.isEmpty
  | .vattrdict es => ¬ es.isEmpty

/-- Python `isinstance(v, dict)` — `AttrDict` is a `dict` subclass. -/
def isDictV : Value → Bool
  | .vdict _ => true
  | .vattrdict _ => true
  | _ => false

/-- The source's AttrDict wrap applied by `foreach` to its element
variable: `if isinstance(v, dict): v = AttrDict(v)`. -/
def wrapIfDict : Value → Value
  | .vdict es => .vattrdict es
  | .vattrdict es => .vattrdict es
  | v => v

/-! ## The per-task context dictionary (`self.context`) -/

abbrev Ctx := List (String × Value)

def ctxGet : Ctx → String → Option Value
  | [], _ => none
  | (k', v) :: rest, k => if k' = k then some v else ctxGet rest k

def ctxSet : Ctx → String → Value → Ctx
  | [], k, v => [(k, v)]
  | (k', v') :: rest, k, v =>
      if k' = k then (k, v) :: rest else (k', v') :: ctxSet rest k v

theorem ctxGet_ctxSet_same (ctx : Ctx) (k : String) (v : Value) :
    ctxGet (ctxSet ctx k v) k = some v := by
  induction ctx with
  | nil => simp [ctxSet, ctxGet]
  | cons p rest ih =>
      obtain ⟨k', v'⟩ := p
      by_cases h : k' = k <;> simp [ctxSet, ctxGet, h, ih]

theorem ctxGet_ctxSet_ne (ctx : Ctx) (k k' : String) (v : Value) (h : k ≠ k') :
    ctxGet (ctxSet ctx k v) k' = ctxGet ctx k' := by
  induction ctx with
  | nil => simp [ctxSet, ctxGet, h]
  | cons p rest ih =>
      obtain ⟨k₀, v₀⟩ := p
      by_cases h₀ : k₀ = k
      · subst h₀; simp [ctxSet, ctxGet, h]
      · simp [ctxSet, ctxGet, h₀, ih]

theorem ctxSet_ctxSet (ctx : Ctx) (k : String) (v w : Value) :
    ctxSet (ctxSet ctx k v) k w = ctxSet ctx k w := by
  induction ctx with
  | nil => simp [ctxSet]
  | cons p rest ih =>
      obtain ⟨k₀, v₀⟩ := p
      by_cases h₀ : k₀ = k
      · subst h₀; simp [ctxSet]
      · simp [ctxSet, h₀, ih]

/-! ## Reference expansion (`Parser._expand_references`)

The source splits the text with `TOKEN_PATTERN` — alternatives, in
order: escaped backslash, escaped dollar, a single brace, `$ident`,
`${body}` with nonempty brace-free body — and folds the pieces into a
format string plus a list of reference expressions, then picks one of
the result shapes below.  `RefResult`'s constructors correspond
one-to-one to the source's result expressions. -/

def isWordChar (c : Char) : Bool := c.isAlphanum || c = '_'

def identStartChar (c : Char) : Bool := c.isAlpha || c = '_'

/-- Maximal `\w*` span. -/
def spanWord : List Char → List Char × List Char
  | [] => ([], [])
  | c :: r =>
      if isWordChar c then
        let p := spanWord r
        (c :: p.1, p.2)
      else ([], c :: r)

theorem spanWord_append : ∀ l : List Char, (spanWord l).1 ++ (spanWord l).2 = l := by
  intro l
  induction l with
  | nil => rfl
  | cons c r ih => cases h : isWordChar c <;> simp [spanWord, h, ih]

theorem spanWord_snd_length_le (l : List Char) : (spanWord l).2.length ≤ l.length := by
  conv_rhs => rw [← spanWord_append l]
  simp

theorem spanWord_all_word (l : List Char) (h : ∀ c ∈ l, isWordChar c) :
    spanWord l = (l, []) := by
  induction l with
  | nil => rfl
  | cons c r ih =>
      have hc : isWordChar c := h c (by simp)
      have := ih (fun x hx => h x (by simp [hx]))
      simp [spanWord, hc, this]

/-- Maximal `[^}]*` span. -/
def spanToBrace : List Char → List Char × List Char
  | [] => ([], [])
  | c :: r =>
      if c = cbChar then ([], c :: r)
      else
        let p := spanToBrace r
        (c :: p.1, p.2)

theorem spanToBrace_append : ∀ l : List Char, (spanToBrace l).1 ++ (spanToBrace l).2 = l := by
  intro l
  induction l with
  | nil => rfl
  | cons c r ih => by_cases h : c = cbChar <;> simp [spanToBrace, h, ih]

theorem spanToBrace_snd_length_le (l : List Char) : (spanToBrace l).2.length ≤ l.length := by
  conv_rhs => rw [← spanToBrace_append l]
  simp

/-- One piece of the `TOKEN_PATTERN` split: matched tokens, or a single
unmatched text character. -/
inductive Tok where
  | escBS
  | escD
  | lb
  | rb
  | simpleRef (name : List Char)
  | complexRef (body : List Char)
  | text (c : Char)

/-- One scanner step per unit of fuel; every step consumes at least one
character, so `cs.length` fuel always suffices (see `tokenize`). -/
def tokenizeF : ℕ → List Char → List Tok
  | 0, _ => []
  | _, [] => []
  | fuel + 1, '\\' :: '\\' :: r => .escBS :: tokenizeF fuel r
  | fuel + 1, '\\' :: '$' :: r => .escD :: tokenizeF fuel r
  | fuel + 1, '$' :: c :: r =>
      if identStartChar c then
        .simpleRef (c :: (spanWord r).1) :: tokenizeF fuel (spanWord r).2
      else if c = obChar then
        match (spanToBrace r).2 with
        | _ :: r2 =>
            if (spanToBrace r).1 = [] then .text '$' :: tokenizeF fuel (c :: r)
            else .complexRef (spanToBrace r).1 :: tokenizeF fuel r2
        | [] => .text '$' :: tokenizeF fuel (c :: r)
      else .text '$' :: tokenizeF fuel (c :: r)
  | fuel + 1, c :: r =>
      if c = obChar then .lb :: tokenizeF fuel r
      else if c = cbChar then .rb :: tokenizeF fuel r
      else .text c :: tokenizeF fuel r

/-- Scanner equivalent to splitting with `TOKEN_PATTERN` (earliest
position, first matching alternative, greedy spans). -/
def tokenize (cs : List Char) : List Tok := tokenizeF cs.length cs

/-- First-colon split of a `${…}` body (`ref.split(':', 1)`). -/
def splitFirstColon (b : List Char) : List Char × List Char :=
  (b.takeWhile (· ≠ ':'), (b.dropWhile (· ≠ ':')).tail)

/-- Fold the token pieces into the format character list and the
reference-expression list, mirroring the source's loop body. -/
def foldToks : List Tok → List Char → List String → List Char × List String
  | [], fmt, refs => (fmt, refs)
  | t :: ts, fmt, refs =>
      match t with
      | .simpleRef n => foldToks ts (fmt ++ [obChar, cbChar]) (refs ++ [String.mk n])
      | .complexRef b =>
          let r :=
            if b.contains ':' then
              let p := splitFirstColon b
              String.mk ([sqChar, obChar, ':'] ++ p.2 ++ [cbChar, sqChar]) ++
                ".format(" ++ String.mk p.1 ++ ")"
            else String.mk b
          foldToks ts (fmt ++ [obChar, cbChar]) (refs ++ [r])
      | .escBS => foldToks ts (fmt ++ ['\\']) refs
      | .escD => foldToks ts (fmt ++ ['$']) refs
      | .lb => foldToks ts (fmt ++ [m1Char]) refs
      | .rb => foldToks ts (fmt ++ [m2Char]) refs
      | .text c => foldToks ts (fmt ++ [c]) refs

/-- The result of `_expand_references`, one constructor per result
expression of the source:
* `bare r`     — `result = refs[0]` (single unquoted reference);
* `strCast r`  — `result = 'str({})'.format(refs[0])` (single quoted reference);
* `strLit s`   — `result = repr(fmt)` (string mode, no references);
* `rawText s`  — `result = fmt` (expression mode, no references);
* `fmtCall f rs` — `result = repr(fmt) + '.format(...)'` (string mode);
* `exprText s` — `result = fmt.format(*refs)` (expression mode). -/
inductive RefResult where
  | bare (ref : String)
  | strCast (ref : String)
  | strLit (s : String)
  | rawText (s : String)
  | fmtCall (f : String) (refs : List String)
  | exprText (s : String)
deriving DecidableEq, Repr

/-- Replace the invisible markers by literal braces
(`fmt.replace('\1', '{').replace('\2', '}')`). -/
def unmarkSingle (cs : List Char) : List Char :=
  cs.map (fun c => if c = m1Char then obChar else if c = m2Char then cbChar else c)

/-- Replace the invisible markers by doubled braces
(`fmt.replace('\1', '{{').replace('\2', '}}')`). -/
def unmarkDouble (cs : List Char) : List Char :=
  (cs.map (fun c =>
      if c = m1Char then [obChar, obChar]
      else if c = m2Char then [cbChar, cbChar]
      else [c])).flatten

/-- Python `str.format` semantics for the format strings this compiler
produces: `{}` takes the next argument, doubled braces are literals. -/
def pyFormatF : ℕ → List Char → List String → List Char
  | 0, _, _ => []
  | _, [], _ => []
  | fuel + 1, c1 :: rest, args =>
      if c1 = obChar then
        match rest with
        | c2 :: rest2 =>
            if c2 = cbChar then
              match args with
              | a :: args' => a.toList ++ pyFormatF fuel rest2 args'
              | [] => obChar :: cbChar :: pyFormatF fuel rest2 []
            else if c2 = obChar then obChar :: pyFormatF fuel rest2 args
            else obChar :: pyFormatF fuel (c2 :: rest2) args
        | [] => [obChar]
      else if c1 = cbChar then
        match rest with
        | c2 :: rest2 =>
            if c2 = cbChar then cbChar :: pyFormatF fuel rest2 args
            else cbChar :: pyFormatF fuel (c2 :: rest2) args
        | [] => [cbChar]
      else c1 :: pyFormatF fuel rest args

def pyFormat (f : List Char) (args : List String) : List Char :=
  pyFormatF f.length f args

def isQuoteChar (c : Char) : Bool := c = sqChar || c = dqChar

/-- The source's `Parser._expand_references` on a character list.  The quote check is
`len(text) > 1 and text[0] in '\'"' and text[0] == text[-1]`. -/
def expandRefsL (cs : List Char) (expandToString : Bool) : RefResult :=
  let q : Bool × Bool × List Char :=
    match cs with
    | c0 :: c1 :: rest =>
        if isQuoteChar c0 ∧ (c1 :: rest).getLast? = some c0 then
          (true, true, (c1 :: rest).dropLast)
        else (false, expandToString, cs)
    | _ => (false, expandToString, cs)
  let quoted := q.1
  let isString := q.2.1
  let fr := foldToks (tokenize q.2.2) [] []
  let fmt := fr.1
  let refs := fr.2
  if fmt = [obChar, cbChar] ∧ refs.length = 1 then
    if quoted then .strCast (refs.headD "") else .bare (refs.headD "")
  else if refs = [] then
    let f := String.mk (unmarkSingle fmt)
    if isString then .strLit f else .rawText f
  else
    let f := unmarkDouble fmt
    if isString then .fmtCall (String.mk f) refs
    else .exprText (String.mk (pyFormat f refs))

/-- The source's `Parser._expand_references` on a string. -/
def expandRefs (s : String) (expandToString : Bool) : RefResult :=
  expandRefsL s.toList expandToString

/-- Render a `RefResult` back to the Python expression text the source
returns (used where the compiler splices the result into names,
conditions and the command-name position). -/
def render : RefResult → String
  | .bare r => r
  | .strCast r => "str(" ++ r ++ ")"
  | .strLit s => pyReprStr s
  | .rawText s => s
  | .fmtCall f rs => pyReprStr f ++ ".format(" ++ String.intercalate ", " rs ++ ")"
  | .exprText s => s

/-! ## Command-line lexing (`shlex.shlex(line)` with `whitespace_split`)

The source uses the Python 2 `shlex` class in its default non-POSIX
mode: quotes are kept in the token, a quoted span ends the token at the
closing quote, `#` starts a comment, and there is no escape
processing.  An unterminated quote raises
`ValueError('No closing quotation')`. -/

/-- Span up to (excluding) a stop character. -/
def spanUntil (stop : Char) : List Char → List Char × List Char
  | [] => ([], [])
  | c :: r =>
      if c = stop then ([], c :: r)
      else
        let p := spanUntil stop r
        (c :: p.1, p.2)

theorem spanUntil_append (stop : Char) :
    ∀ l : List Char, (spanUntil stop l).1 ++ (spanUntil stop l).2 = l := by
  intro l
  induction l with
  | nil => rfl
  | cons c r ih => by_cases h : c = stop <;> simp [spanUntil, h, ih]

theorem spanUntil_snd_length_le (stop : Char) (l : List Char) :
    (spanUntil stop l).2.length ≤ l.length := by
  conv_rhs => rw [← spanUntil_append stop l]
  simp

mutual

/-- Lexer state `' '` (between tokens), one step per unit of fuel;
every step consumes at least one character, so `cs.length` fuel always
suffices (see `shlexStart`). -/
def shlexStartF : ℕ → List Char → Except PyErr (List String)
  | 0, _ => .ok []
  | _, [] => .ok []
  | fuel + 1, c :: r =>
      if c.isWhitespace then shlexStartF fuel r
      else if c = '#' then .ok []
      else if isQuoteChar c then
        match (spanUntil c r).2 with
        | [] => .error (.valueError "No closing quotation")
        | _ :: rest =>
            (shlexStartF fuel rest).map
              (fun ts => String.mk (c :: (spanUntil c r).1 ++ [c]) :: ts)
      else shlexWordF fuel [c] r

/-- Lexer state `'a'` (inside a token; quote characters are plain
characters here because `whitespace_split` is checked first). -/
def shlexWordF : ℕ → List Char → List Char → Except PyErr (List String)
  | _, acc, [] => .ok [String.mk acc]
  | 0, acc, _ => .ok [String.mk acc]
  | fuel + 1, acc, c :: r =>
      if c.isWhitespace then (shlexStartF fuel r).map (fun ts => String.mk acc :: ts)
      else if c = '#' then .ok [String.mk acc]
      else shlexWordF fuel (acc ++ [c]) r

end

def shlexStart (cs : List Char) : Except PyErr (List String) :=
  shlexStartF cs.length cs

/-! ## The executable plan

The source builds Python source lines; the AST below corresponds to the
generated line shapes and the interpreter further down gives the
generated code's semantics. -/

/-- One generated `_run({cmdname!r}, [{args}])` call. -/
structure Call where
  cmd : String
  args : List RefResult
deriving DecidableEq, Repr

inductive CondKind where
  | cif
  | celif
  | celse
deriving DecidableEq, Repr

/-- One generated `if`/`elif`/`else` header plus its indented calls
(`Parser._expand_conditional`). -/
structure CondBlock where
  kind : CondKind
  cond : String
  body : List Call
deriving DecidableEq, Repr

/-- A statement inside a `foreach` body: a probe command line or a
single-key conditional mapping. -/
inductive FStmt where
  | call (c : Call)
  | cond (cb : CondBlock)
deriving DecidableEq, Repr

/-- One top-level control clause of a task. -/
inductive Clause where
  | foreach1 (v : String) (body : List FStmt)
  | foreach2 (k v : String) (body : List FStmt)
  | cond (cb : CondBlock)
deriving DecidableEq, Repr

structure Plan where
  primary : Call
  clauses : List Clause
deriving DecidableEq, Repr

/-! ## The compiler (`Parser._expand_*`) -/

/-- The source's `Parser._expand_call`. -/
def expand_call (fns : List String) (line : Yaml) : Except PyErr Call :=
  match line with
  | .ymap _ => .error (.valueError "cannot use \":\" in salt command line")
  | .ystr s =>
      match shlexStart s.toList with
      | .error (.valueError m) => .error (.valueError (m ++ ", line: " ++ s))
      | .error e => .error e
      | .ok [] => .error (.valueError ("missing salt command, line: " ++ s))
      | .ok (t0 :: ts) =>
          let cmdname := render (expandRefs t0 false)
          let args := ts.map (fun t => expandRefs t true)
          if cmdname ∈ fns then .ok ⟨cmdname, args⟩
          else .error (.valueError ("no such function: " ++ cmdname))
  | _ => .error (.typeError "shlex expects a string")

/-- The action list of a conditional; `None` and empty collections are
falsy and lower to `pass`. Iterating a mapping yields its keys. -/
def expandActions (fns : List String) : Yaml → Except PyErr (List Call)
  | .ynull => .ok []
  | .ylist xs => xs.mapM (expand_call fns)
  | .ymap es => es.mapM (fun p => expand_call fns (.ystr p.1))
  | .ystr s => s.toList.mapM (fun ch => expand_call fns (.ystr (String.mk [ch])))
  | .ynum q => if q = 0 then .ok [] else .error (.typeError "is not iterable")

/-! ## Structural string helpers

Executable counterparts of the Python string operations the compiler
uses (`strip`, single-character `replace`, `startswith`, `endswith`,
slicing, whitespace `split`), defined by structural recursion over the
character list so that concrete compilations reduce definitionally. -/

/-- Python `str.strip()`. -/
def strTrim (s : String) : String :=
  String.mk (((s.toList.dropWhile Char.isWhitespace).reverse.dropWhile
    Char.isWhitespace).reverse)

/-- Single-character `str.replace(a, b)`. -/
def strReplaceChar (a b : Char) (s : String) : String :=
  String.mk (s.toList.map (fun c => if c = a then b else c))

def isPrefixOfL : List Char → List Char → Bool
  | [], _ => true
  | _ :: _, [] => false
  | p :: ps, c :: cs => p = c && isPrefixOfL ps cs

/-- Python `str.startswith(pre)`. -/
def strStartsWith (s pre : String) : Bool := isPrefixOfL pre.toList s.toList

/-- Python `str[n:]`. -/
def strDrop (s : String) (n : ℕ) : String := String.mk (s.toList.drop n)

/-- Python `str.endswith(':')`. -/
def strEndsWithColon (s : String) : Bool := s.toList.getLast? = some ':'

/-- Python `str[:-1]`. -/
def strDropLast (s : String) : String := String.mk (s.toList.dropLast)

def splitWSGo : List Char → List Char → List String
  | [], [] => []
  | [], acc => [String.mk acc.reverse]
  | c :: r, acc =>
      if c.isWhitespace then
        match acc with
        | [] => splitWSGo r []
        | _ :: _ => String.mk acc.reverse :: splitWSGo r []
      else splitWSGo r (c :: acc)

/-- Python `str.split()` with no separator: split on whitespace runs, no empty
pieces. -/
def splitWS (s : String) : List String := splitWSGo s.toList []

/-- The source's `Parser._expand_conditional`: strip and untab the key, expand
references in expression mode, prepend `if ` unless the text already
starts an `if`/`elif`/`else` header. -/
def expand_conditional (fns : List String) (condition : String) (actions : Yaml) :
    Except PyErr CondBlock := do
  let c := strReplaceChar '\t' ' ' (strTrim condition)
  let e := render (expandRefs c false)
  let e := if strStartsWith e "if " ∨ strStartsWith e "elif " ∨ strStartsWith e "else"
           then e else "if " ++ e
  let e := if strEndsWithColon e then strDropLast e else e
  let body ← expandActions fns actions
  if strStartsWith e "if " then .ok ⟨.cif, strDrop e 3, body⟩
  else if strStartsWith e "elif " then .ok ⟨.celif, strDrop e 5, body⟩
  else .ok ⟨.celse, "", body⟩

/-- One statement of a `foreach` body: strings are probe command lines,
single-key mappings are conditionals (`statement.items()[0]`), anything
else falls through the `if`/`elif` with no `else` and is skipped. -/
def expandFStmt (fns : List String) (st : Yaml) : Except PyErr (Option FStmt) :=
  match st with
  | .ystr s => (expand_call fns (.ystr s)).map (fun c => some (.call c))
  | .ymap [] => .error .indexError
  | .ymap ((c, a) :: _) => (expand_conditional fns c a).map (fun cb => some (.cond cb))
  | _ => .ok none

/-- The statement list of a `foreach` clause (`for statement in value`;
iterating a mapping yields its keys, a string its characters). -/
def expandBody (fns : List String) : Yaml → Except PyErr (List FStmt)
  | .ylist xs => do
      let os ← xs.mapM (expandFStmt fns)
      .ok (os.filterMap id)
  | .ymap es => do
      let cs ← es.mapM (fun p => expand_call fns (.ystr p.1))
      .ok (cs.map .call)
  | .ystr s => do
      let cs ← s.toList.mapM (fun ch => expand_call fns (.ystr (String.mk [ch])))
      .ok (cs.map .call)
  | .ynull => .error (.typeError "is not iterable")
  | .ynum _ => .error (.typeError "is not iterable")

/-- The source's `Parser._expand_foreach` (the `paramters` typo is the source's). -/
def expand_foreach (fns : List String) (params : List String) (value : Yaml) :
    Except PyErr Clause :=
  let names := params.map (fun p => render (expandRefs p false))
  match names with
  | [] => .error (.valueError "foreach missing parameter(s)")
  | [v] => do
      let body ← expandBody fns value
      .ok (.foreach1 v body)
  | [k, v] => do
      let body ← expandBody fns value
      .ok (.foreach2 k v body)
  | names => .error (.valueError
      ("foreach has too many paramters: " ++ String.intercalate ", " names))

abbrev TaskDict := List (String × Yaml)

def tdLookup : List (String × Yaml) → String → Option Yaml
  | [], _ => none
  | (k, v) :: rest, key => if k = key then some v else tdLookup rest key

/-- The control-clause loop of `Parser._expand_task`: every key is
stripped and untabbed; `foreach ` keys and `if ` keys become clauses,
everything else (`run`, `id`, `every`, `at`, unknown keys) is skipped. -/
def expandClauses (fns : List String) : TaskDict → Except PyErr (List Clause)
  | [] => .ok []
  | (key, value) :: rest => do
      let k := strReplaceChar '\t' ' ' (strTrim key)
      if strStartsWith k "foreach " then
        let params := splitWS (strReplaceChar ',' ' ' (strTrim (strDrop k 8)))
        let cl ← expand_foreach fns params value
        let cls ← expandClauses fns rest
        .ok (cl :: cls)
      else if strStartsWith k "if " then
        let cb ← expand_conditional fns k value
        let cls ← expandClauses fns rest
        .ok (.cond cb :: cls)
      else expandClauses fns rest

/-- The source's `Parser._expand_task`.  `taskdict['run']` raises `KeyError` when the
key is absent (it is not a `ValueError`). -/
def expand_task (fns : List String) (td : TaskDict) : Except PyErr Plan := do
  let rawtask ← match tdLookup td "run" with
    | some y => Except.ok y
    | none => Except.error (.keyError "run")
  let primary ← expand_call fns rawtask
  let clauses ← expandClauses fns td
  .ok ⟨primary, clauses⟩

/-! ## Schedulers

`src/salt/ext/monitor/cron.py` (class `CronParser`) is not under
`src/`; only its caller `Parser._expand_scheduler` is.  The scheduler
itself is therefore modelled from the spec (§4.1). -/

inductive Sched where
  | interval (spec : Yaml)
  | cron (spec : Yaml)

def yamlNum : Yaml → ℚ
  | .ynum q => q
  | _ => 0

/-- Modelled from the spec: the interval-mode duration of
`CronParser.create_scheduler` (cron.py is missing from src/).  The
scheduler emits the fixed total `Σ field·unit` over
`{day, hour, minute, second}`; if all fields are absent, the
default-interval fallback (10 s) applies. -/
def intervalSeconds (spec : Yaml) : ℚ :=
  match spec with
  | .ymap es =>
      let fields : List (String × ℚ) :=
        [("day", 86400), ("hour", 3600), ("minute", 60), ("second", 1)]
      let present := fields.filterMap
        (fun fu => (tdLookup es fu.1).map (fun y => (fu.2, y)))
      if present.isEmpty then 10
      else present.foldl (fun acc uy => acc + uy.1 * yamlNum uy.2) 0
  | _ => 10

/-- Modelled from the spec: `CronParser.create_scheduler(kind, spec)`
(cron.py is missing from src/).  Interval mode accepts its spec; cron
mode rejects an empty or non-mapping spec during compilation. -/
def create_scheduler (kind : String) (spec : Yaml) : Except PyErr Sched :=
  if kind = "interval" then .ok (.interval spec)
  else
    match spec with
    | .ymap [] => .error (.valueError "empty cron specification")
    | .ymap es => .ok (.cron (.ymap es))
    | _ => .error (.valueError "malformed cron specification")

/-- What the scheduler's `next()` yields on its n-th call.  Cron mode
depends on wall-clock time, which is outside the model; the claims only
exercise interval mode. -/
def schedNext : Sched → ℕ → ℚ
  | .interval spec, _ => intervalSeconds spec
  | .cron _, _ => 0

def DEFAULT_INTERVAL_SECONDS : ℚ := 10

/-- The default of `monitor.opts.get('monitor.default_interval', …)`:
`{'seconds': DEFAULT_INTERVAL_SECONDS}`. -/
def defaultIntervalDict : Yaml := .ymap [("seconds", .ynum DEFAULT_INTERVAL_SECONDS)]

/-- The compiler state from `Parser.__init__`: the function registry's
names, the resolved default interval, and the address of the single
context dictionary `self.context` built once by `_make_context`. -/
structure Parser where
  funcNames : List String
  defaultInterval : Yaml
  ctxAddr : ℕ

/-- The lookup `Parser.__init__` performs for the default interval. -/
def parserDefaultInterval (opts : List (String × Yaml)) : Yaml :=
  (tdLookup opts "monitor.default_interval").getD defaultIntervalDict

/-- The source's `Parser._expand_scheduler`. -/
def expand_scheduler (p : Parser) (td : TaskDict) : Except PyErr Sched :=
  match tdLookup td "every" with
  | some e => create_scheduler "interval" e
  | none =>
      match tdLookup td "at" with
      | some a => create_scheduler "cron" a
      | none => create_scheduler "interval" p.defaultInterval

/-- The attributes `MonitorTask.__init__` stores; `contextAddr`
is the reference to the context dictionary object passed in
(`self.context` of the parser, shared by reference). -/
structure MonitorTask where
  taskid : String
  plan : Plan
  contextAddr : ℕ
  scheduler : Sched

/-- The id default `taskdict.get('id', 'monitor-<n>')` (non-string ids are not
exercised by any claim and fall back to the default here). -/
def taskIdOf (n : ℕ) (td : TaskDict) : String :=
  match tdLookup td "id" with
  | some (.ystr s) => s
  | _ => "monitor-" ++ toString n

/-- The body of `_expand_tasks`'s loop for one entry: generate and
compile the task source, build the scheduler, construct the task with
the parser's shared context. -/
def expandEntry (p : Parser) (n : ℕ) (td : TaskDict) : Except PyErr MonitorTask := do
  let plan ← expand_task p.funcNames td
  let sched ← expand_scheduler p td
  .ok ⟨taskIdOf n td, plan, p.ctxAddr, sched⟩

def expandTasksFrom (p : Parser) : ℕ → List TaskDict → Except PyErr (List MonitorTask)
  | _, [] => .ok []
  | n, td :: rest =>
      match expandEntry p n td with
      | .ok t => (expandTasksFrom p (n + 1) rest).map (fun ts => t :: ts)
      | .error (.valueError _) => expandTasksFrom p (n + 1) rest
      | .error e => .error e

/-- The source's `Parser._expand_tasks`: entries are numbered from 1; a `ValueError`
is logged and the entry skipped; any other exception propagates out of
the whole loop. -/
def expand_tasks (p : Parser) (tds : List TaskDict) : Except PyErr (List MonitorTask) :=
  expandTasksFrom p 1 tds

/-! ## Interpreter for the generated code

The generated module runs under `exec self.code in self.context`; the
interpreter below executes a `Plan` against the context.  Reference
expressions that are plain identifiers are looked up in the context;
any other Python expression text is delegated to an evaluator parameter
(`Oracle`) standing for the host language's expression evaluation —
theorems quantify over it.  Every probe invocation is also recorded in
an explicit event list `(cmd, args, return)`. -/

abbrev AgentFn := List Value → Except PyErr Value

/-- The `functions` registry consumed from the host agent. -/
abbrev Funcs := String → Option AgentFn

/-- Evaluation of non-identifier Python expression text. -/
abbrev Oracle := String → Ctx → Except PyErr Value

/-- The source constant `ALL_RESULTS_VARIABLE = "task_results"` (task.py). -/
def ALL_RESULTS_VARIABLE : String := "task_results"

/-- The source constant `PRIMARY_RESULT_VARIABLE = "result"` (yaml.py). -/
def PRIMARY_RESULT_VARIABLE : String := "result"

def isPyIdent (s : String) : Bool :=
  match s.toList with
  | [] => false
  | c :: r => identStartChar c && r.all isWordChar

/-- Evaluate Python expression text: identifiers are context lookups
(`NameError` when unbound), everything else goes to the oracle. -/
def evalPyExpr (oracle : Oracle) (ctx : Ctx) (s : String) : Except PyErr Value :=
  if isPyIdent s then
    match ctxGet ctx s with
    | some v => .ok v
    | none => .error (.nameError s)
  else oracle s ctx

/-- Evaluate a list of expression texts left to right. -/
def evalPyExprs (oracle : Oracle) (ctx : Ctx) : List String → Except PyErr (List Value)
  | [] => .ok []
  | r :: rs => do
      let v ← evalPyExpr oracle ctx r
      let vs ← evalPyExprs oracle ctx rs
      .ok (v :: vs)

/-- Evaluate one expanded reference expression.  String-mode formatting
uses `str.format`, which applies `str()` to each argument under an
empty format spec. -/
def evalRefResult (oracle : Oracle) (ctx : Ctx) : RefResult → Except PyErr Value
  | .bare r => evalPyExpr oracle ctx r
  | .strCast r => (evalPyExpr oracle ctx r).map (fun v => .vstr (pyStr v))
  | .strLit s => .ok (.vstr s)
  | .rawText s => evalPyExpr oracle ctx s
  | .exprText s => evalPyExpr oracle ctx s
  | .fmtCall f rs => do
      let vs ← evalPyExprs oracle ctx rs
      .ok (.vstr (String.mk (pyFormat f.toList (vs.map pyStr))))

/-- Evaluate the argument expressions of a generated call left to
right (the `[{args}]` list literal). -/
def evalArgs (oracle : Oracle) (ctx : Ctx) : List RefResult → Except PyErr (List Value)
  | [] => .ok []
  | a :: as => do
      let v ← evalRefResult oracle ctx a
      let vs ← evalArgs oracle ctx as
      .ok (v :: vs)

/-- One probe invocation event: command name, arguments, return value. -/
abbrev Event := String × List Value × Value

/-- The `[[cmd] + args, ret]` entry `_run` appends to `task_results`. -/
def encodeEvent (e : Event) : Value :=
  .vlist [.vlist (.vstr e.1 :: e.2.1), e.2.2]

/-- The generated `_run(cmd, args)` helper: evaluate the argument
expressions, call `functions[cmd](*args)`, append `[[cmd] + args, ret]`
to `task_results`, and return `ret`. -/
def execCall (funcs : Funcs) (oracle : Oracle) (ctx : Ctx) (c : Call) :
    Except PyErr (Ctx × Value × Event) := do
  let args ← evalArgs oracle ctx c.args
  match funcs c.cmd with
  | none => .error (.keyError c.cmd)
  | some f => do
      let ret ← f args
      match ctxGet ctx ALL_RESULTS_VARIABLE with
      | some (.vlist xs) =>
          .ok (ctxSet ctx ALL_RESULTS_VARIABLE
                 (.vlist (xs ++ [encodeEvent (c.cmd, args, ret)])),
               ret, (c.cmd, args, ret))
      | _ => .error (.attributeError "append")

/-- The statements indented under a conditional header (plain calls;
their return values are discarded). -/
def execCalls (funcs : Funcs) (oracle : Oracle) :
    List Call → Ctx → Except PyErr (Ctx × List Event)
  | [], ctx => .ok (ctx, [])
  | c :: cs, ctx => do
      let (ctx', _, ev) ← execCall funcs oracle ctx c
      let (ctx'', evs) ← execCalls funcs oracle cs ctx'
      .ok (ctx'', ev :: evs)

/-- Run one `if`/`elif`/`else` block.  `chain` is `some b` when the
immediately preceding statement was an `if`/`elif` header of the same
suite whose guards so far evaluated to `b`; Python skips an `elif`
guard entirely once the chain has fired. -/
def execCondBlock (funcs : Funcs) (oracle : Oracle) (ctx : Ctx) (chain : Option Bool)
    (cb : CondBlock) : Except PyErr (Ctx × List Event × Option Bool) :=
  match cb.kind with
  | .cif => do
      let v ← evalPyExpr oracle ctx cb.cond
      if pyTruthy v then do
        let (ctx', evs) ← execCalls funcs oracle cb.body ctx
        .ok (ctx', evs, some true)
      else .ok (ctx, [], some false)
  | .celif =>
      match chain with
      | some true => .ok (ctx, [], some true)
      | some false => do
          let v ← evalPyExpr oracle ctx cb.cond
          if pyTruthy v then do
            let (ctx', evs) ← execCalls funcs oracle cb.body ctx
            .ok (ctx', evs, some true)
          else .ok (ctx, [], some false)
      | none => .ok (ctx, [], none)
  | .celse =>
      match chain with
      | some false => do
          let (ctx', evs) ← execCalls funcs oracle cb.body ctx
          .ok (ctx', evs, none)
      | _ => .ok (ctx, [], none)

/-- Run a `foreach` body's statement list, threading the `if`-chain
state. -/
def execFStmts (funcs : Funcs) (oracle : Oracle) :
    List FStmt → Ctx → Option Bool → Except PyErr (Ctx × List Event)
  | [], ctx, _ => .ok (ctx, [])
  | .call c :: rest, ctx, _ => do
      let (ctx', _, ev) ← execCall funcs oracle ctx c
      let (ctx'', evs) ← execFStmts funcs oracle rest ctx' none
      .ok (ctx'', ev :: evs)
  | .cond cb :: rest, ctx, chain => do
      let (ctx', evs₁, chain') ← execCondBlock funcs oracle ctx chain cb
      let (ctx'', evs₂) ← execFStmts funcs oracle rest ctx' chain'
      .ok (ctx'', evs₁ ++ evs₂)

/-- What Python's `for v in result:` iteration yields per value class
(a mapping yields its keys, a string its characters; scalars raise). -/
def iterValues : Value → Except PyErr (List Value)
  | .vlist xs => .ok xs
  | .vset xs => .ok xs
  | .vdict es => .ok (es.map (fun p => .vstr p.1))
  | .vattrdict es => .ok (es.map (fun p => .vstr p.1))
  | .vstr s => .ok (s.toList.map (fun c => .vstr (String.mk [c])))
  | _ => .error (.typeError "is not iterable")

/-- Byte-wise (code-point) lexicographic string order, as Python 2
compares `str` keys. -/
def strLeChars : List Char → List Char → Bool
  | [], _ => true
  | _ :: _, [] => false
  | a :: as, b :: bs =>
      if a.toNat < b.toNat then true
      else if b.toNat < a.toNat then false
      else strLeChars as bs

def strLe (a b : String) : Bool := strLeChars a.toList b.toList

def insPair (p : String × Value) : List (String × Value) → List (String × Value)
  | [] => [p]
  | q :: rest => if strLe p.1 q.1 then p :: q :: rest else q :: insPair p rest

/-- The source's `sorted(result.iteritems())`: dict items in ascending key order
(keys are unique in a Python dict, so the tuple comparison never reaches
the values). -/
def sortPairs : List (String × Value) → List (String × Value)
  | [] => []
  | p :: rest => insPair p (sortPairs rest)

/-- Python 2 cross-type ordering rank: `None` sorts first, numbers
before other types, other types by type name. -/
def valRank : Value → ℕ
  | .vnone => 0
  | .vbool _ => 1
  | .vint _ => 1
  | .vattrdict _ => 2
  | .vdict _ => 3
  | .vlist _ => 4
  | .vset _ => 5
  | .vstr _ => 6

/-- Python 2 value comparison as `sorted()` needs it (claims never
exercise same-type container comparison, which falls back to the
printed form here). -/
def pyValLe (a b : Value) : Bool :=
  match a, b with
  | .vint m, .vint n => m ≤ n
  | .vint m, .vbool y => m ≤ (if y then 1 else 0)
  | .vbool x, .vint n => (if x then 1 else 0 : Int) ≤ n
  | .vbool x, .vbool y => (if x then 1 else 0 : Int) ≤ (if y then 1 else 0)
  | .vstr s, .vstr t => strLe s t
  | a, b =>
      if valRank a = valRank b then strLe (pyStr a) (pyStr b)
      else valRank a ≤ valRank b

def insVal (x : Value) : List Value → List Value
  | [] => [x]
  | y :: rest => if pyValLe x y then x :: y :: rest else y :: insVal x rest

/-- Python `sorted(result)` over a set's elements. -/
def sortVals : List Value → List Value
  | [] => []
  | x :: rest => insVal x (sortVals rest)

/-- The loop body of the single-variable `foreach`: bind the element,
wrap mappings as `AttrDict` (the wrap is an `if isinstance(…, dict)`
statement, so it opens an `if` chain seen by the first body statement),
then run the statements. -/
def execForeach1Elems (funcs : Funcs) (oracle : Oracle) (v : String) (body : List FStmt) :
    List Value → Ctx → Except PyErr (Ctx × List Event)
  | [], ctx => .ok (ctx, [])
  | x :: xs, ctx => do
      let ctx := ctxSet ctx v (wrapIfDict x)
      let (ctx', evs₁) ← execFStmts funcs oracle body ctx (some (isDictV x))
      let (ctx'', evs₂) ← execForeach1Elems funcs oracle v body xs ctx'
      .ok (ctx'', evs₁ ++ evs₂)

/-- The loop body of the two-variable `foreach`: bind key and value,
wrap the value when it is a mapping (again opening an `if` chain), then
run the statements. -/
def execForeach2Elems (funcs : Funcs) (oracle : Oracle) (k v : String) (body : List FStmt) :
    List (String × Value) → Ctx → Except PyErr (Ctx × List Event)
  | [], ctx => .ok (ctx, [])
  | (key, val) :: xs, ctx => do
      let ctx := ctxSet (ctxSet ctx k (.vstr key)) v (wrapIfDict val)
      let (ctx', evs₁) ← execFStmts funcs oracle body ctx (some (isDictV val))
      let (ctx'', evs₂) ← execForeach2Elems funcs oracle k v body xs ctx'
      .ok (ctx'', evs₁ ++ evs₂)

/-- Run one top-level clause.  `foreach1`: a set result is sorted in
place; `foreach2`: a non-dict result raises
`ValueError('result is not a dict')`, a dict result is rebound to
`AttrDict(result)` and iterated in sorted key order. -/
def execClause (funcs : Funcs) (oracle : Oracle) (ctx : Ctx) (chain : Option Bool) :
    Clause → Except PyErr (Ctx × List Event × Option Bool)
  | .cond cb => execCondBlock funcs oracle ctx chain cb
  | .foreach1 v body => do
      let r ← match ctxGet ctx PRIMARY_RESULT_VARIABLE with
        | some r => Except.ok r
        | none => Except.error (.nameError PRIMARY_RESULT_VARIABLE)
      let (ctx, r) :=
        match r with
        | .vset xs =>
            let sorted := Value.vlist (sortVals xs)
            (ctxSet ctx PRIMARY_RESULT_VARIABLE sorted, sorted)
        | r => (ctx, r)
      let elems ← iterValues r
      let (ctx', evs) ← execForeach1Elems funcs oracle v body elems ctx
      .ok (ctx', evs, none)
  | .foreach2 k v body => do
      let r ← match ctxGet ctx PRIMARY_RESULT_VARIABLE with
        | some r => Except.ok r
        | none => Except.error (.nameError PRIMARY_RESULT_VARIABLE)
      match r with
      | .vdict es => do
          let ctx := ctxSet ctx PRIMARY_RESULT_VARIABLE (.vattrdict es)
          let (ctx', evs) ← execForeach2Elems funcs oracle k v body (sortPairs es) ctx
          .ok (ctx', evs, none)
      | .vattrdict es => do
          let ctx := ctxSet ctx PRIMARY_RESULT_VARIABLE (.vattrdict es)
          let (ctx', evs) ← execForeach2Elems funcs oracle k v body (sortPairs es) ctx
          .ok (ctx', evs, none)
      | _ => .error (.valueError (PRIMARY_RESULT_VARIABLE ++ " is not a dict"))

def execClauses (funcs : Funcs) (oracle : Oracle) :
    List Clause → Ctx → Option Bool → Except PyErr (Ctx × List Event)
  | [], ctx, _ => .ok (ctx, [])
  | cl :: cls, ctx, chain => do
      let (ctx', evs₁, chain') ← execClause funcs oracle ctx chain cl
      let (ctx'', evs₂) ← execClauses funcs oracle cls ctx' chain'
      .ok (ctx'', evs₁ ++ evs₂)

/-- One `exec self.code in self.context`: the generated module sets
`task_results = []`, runs `result = <primary call>`, then the control
clauses in order. -/
def execPlan (funcs : Funcs) (oracle : Oracle) (p : Plan) (ctx : Ctx) :
    Except PyErr (Ctx × List Event) := do
  let ctx := ctxSet ctx ALL_RESULTS_VARIABLE (.vlist [])
  let (ctx, ret, ev) ← execCall funcs oracle ctx p.primary
  let ctx := ctxSet ctx PRIMARY_RESULT_VARIABLE ret
  let (ctx', evs) ← execClauses funcs oracle p.clauses ctx none
  .ok (ctx', ev :: evs)

/-- The attribute names `MonitorTask.__init__` defines on the task
object. -/
def taskAttrNames : List String := ["taskid", "code", "context", "scheduler"]

/-- One iteration of `MonitorTask.run`: `exec` the plan; on any
exception the handler `log.error("can't execute %s: %s", self.cmdid,
ex, …)` must first read `self.cmdid` — an attribute `__init__` never
defines — so the handler itself raises `AttributeError`, which nothing
catches.  On success, a bound returner is called and its exceptions are
caught and logged (that log call reads `self.taskid`, which exists). -/
def runIteration (funcs : Funcs) (oracle : Oracle) (t : MonitorTask)
    (returner : Option (Value → Except PyErr Value)) (ctx : Ctx) :
    Except PyErr (Ctx × List Event) :=
  match execPlan funcs oracle t.plan ctx with
  | .ok (ctx', evs) =>
      match returner with
      | some r =>
          match r ((ctxGet ctx' ALL_RESULTS_VARIABLE).getD .vnone) with
          | _ => .ok (ctx', evs)
      | none => .ok (ctx', evs)
  | .error _ =>
      if "cmdid" ∈ taskAttrNames then .ok (ctx, [])
      else .error (.attributeError "cmdid")

/-! ## Facts about the key order and `sorted(result.iteritems())` -/

theorem strLeChars_total (a b : List Char) : strLeChars a b ∨ strLeChars b a := by
  induction a generalizing b with
  | nil => left; simp [strLeChars]
  | cons x xs ih =>
      cases b with
      | nil => right; simp [strLeChars]
      | cons y ys =>
          by_cases hxy : x.toNat < y.toNat
          · left; simp [strLeChars, hxy]
          · by_cases hyx : y.toNat < x.toNat
            · right; simp [strLeChars, hyx]
            · rcases ih ys with h | h
              · left; simp [strLeChars, hxy, hyx, h]
              · right; simp [strLeChars, hxy, hyx, h]

theorem strLeChars_trans (a : List Char) :
    ∀ b c, strLeChars a b → strLeChars b c → strLeChars a c := by
  induction a with
  | nil => intro b c _ _; simp [strLeChars]
  | cons x xs ih =>
      intro b c h1 h2
      cases b with
      | nil => simp [strLeChars] at h1
      | cons y ys =>
          cases c with
          | nil => simp [strLeChars] at h2
          | cons z zs =>
              simp only [strLeChars] at h1 h2 ⊢
              by_cases hxy : x.toNat < y.toNat
              · by_cases hyz : y.toNat < z.toNat
                · have hxz : x.toNat < z.toNat := by omega
                  simp [hxz]
                · by_cases hzy : z.toNat < y.toNat
                  · simp [hyz, hzy] at h2
                  · have hxz : x.toNat < z.toNat := by omega
                    simp [hxz]
              · by_cases hyx : y.toNat < x.toNat
                · simp [hxy, hyx] at h1
                · simp [hxy, hyx] at h1
                  by_cases hyz : y.toNat < z.toNat
                  · have hxz : x.toNat < z.toNat := by omega
                    simp [hxz]
                  · by_cases hzy : z.toNat < y.toNat
                    · simp [hyz, hzy] at h2
                    · simp [hyz, hzy] at h2
                      have hxz : ¬ x.toNat < z.toNat := by omega
                      have hzx : ¬ z.toNat < x.toNat := by omega
                      simp [hxz, hzx]
                      exact ih ys zs h1 h2

theorem strLe_total (a b : String) : strLe a b ∨ strLe b a :=
  strLeChars_total a.toList b.toList

theorem strLe_trans {a b c : String} (h1 : strLe a b) (h2 : strLe b c) : strLe a c :=
  strLeChars_trans a.toList b.toList c.toList h1 h2

def keyLe (a b : String × Value) : Prop := strLe a.1 b.1 = true

theorem mem_insPair {p q : String × Value} {l : List (String × Value)} :
    q ∈ insPair p l ↔ q = p ∨ q ∈ l := by
  induction l with
  | nil => simp [insPair]
  | cons r rest ih =>
      by_cases h : strLe p.1 r.1 <;> simp [insPair, h, ih] <;> try tauto

theorem insPair_pairwise {p : String × Value} {l : List (String × Value)}
    (hl : l.Pairwise keyLe) : (insPair p l).Pairwise keyLe := by
  induction l with
  | nil => simp [insPair]
  | cons q rest ih =>
      rw [List.pairwise_cons] at hl
      obtain ⟨hq, hrest⟩ := hl
      by_cases h : strLe p.1 q.1
      · rw [insPair, if_pos h]
        rw [List.pairwise_cons]
        refine ⟨?_, by rw [List.pairwise_cons]; exact ⟨hq, hrest⟩⟩
        intro r hr
        rcases List.mem_cons.mp hr with rfl | hr
        · exact h
        · exact strLe_trans h (hq r hr)
      · rw [insPair, if_neg h]
        rw [List.pairwise_cons]
        refine ⟨?_, ih hrest⟩
        intro r hr
        rcases mem_insPair.mp hr with heq | hr
        · rw [heq]
          rcases strLe_total p.1 q.1 with h' | h'
          · exact absurd h' h
          · exact h'
        · exact hq r hr

theorem insPair_perm (p : String × Value) (l : List (String × Value)) :
    (insPair p l).Perm (p :: l) := by
  induction l with
  | nil => simp [insPair]
  | cons q rest ih =>
      by_cases h : strLe p.1 q.1
      · rw [insPair, if_pos h]
      · rw [insPair, if_neg h]
        exact (ih.cons q).trans (List.Perm.swap p q rest)

theorem sortPairs_pairwise (l : List (String × Value)) :
    (sortPairs l).Pairwise keyLe := by
  induction l with
  | nil => simp [sortPairs]
  | cons p rest ih => exact insPair_pairwise ih

theorem sortPairs_perm (l : List (String × Value)) : (sortPairs l).Perm l := by
  induction l with
  | nil => simp [sortPairs]
  | cons p rest ih => exact (insPair_perm p (sortPairs rest)).trans (ih.cons p)

/-! ## Execution-trace lemmas

Every probe invocation run by the interpreter appends exactly its
`[[cmd] + args, ret]` entry to `task_results`, in execution order, and
touches no other context variable. -/

@[simp] theorem exceptBind_ok {α β : Type} (a : α) (f : α → Except PyErr β) :
    (Except.ok a : Except PyErr α) >>= f = f a := rfl

@[simp] theorem exceptBind_error {α β : Type} (e : PyErr) (f : α → Except PyErr β) :
    (Except.error e : Except PyErr α) >>= f = .error e := rfl

@[simp] theorem exceptMap_ok {α β : Type} (a : α) (f : α → β) :
    (Except.ok a : Except PyErr α).map f = .ok (f a) := rfl

@[simp] theorem exceptMap_error {α β : Type} (e : PyErr) (f : α → β) :
    (Except.error e : Except PyErr α).map f = .error e := rfl

/-- The variable names a clause's generated code assigns (its `for`
loop variables). -/
def clauseBinders : Clause → List String
  | .foreach1 v _ => [v]
  | .foreach2 k v _ => [k, v]
  | .cond _ => []

def planBinders (p : Plan) : List String := (p.clauses.map clauseBinders).flatten

theorem execCall_ok {funcs : Funcs} {oracle : Oracle} {ctx : Ctx} {c : Call}
    {ctx' : Ctx} {ret : Value} {ev : Event}
    (h : execCall funcs oracle ctx c = .ok (ctx', ret, ev)) :
    ∃ xs, ctxGet ctx ALL_RESULTS_VARIABLE = some (.vlist xs) ∧
      ctx' = ctxSet ctx ALL_RESULTS_VARIABLE (.vlist (xs ++ [encodeEvent ev])) := by
  simp only [execCall] at h
  cases hargs : evalArgs oracle ctx c.args with
  | error e => simp [hargs] at h
  | ok args =>
      simp only [hargs, exceptBind_ok] at h
      cases hf : funcs c.cmd with
      | none => simp [hf] at h
      | some f =>
          simp only [hf] at h
          cases hr : f args with
          | error e => simp [hr] at h
          | ok r =>
              simp only [hr, exceptBind_ok] at h
              cases har : ctxGet ctx ALL_RESULTS_VARIABLE with
              | none => simp [har] at h
              | some v =>
                  cases v <;> simp [har] at h
                  case vlist xs =>
                    obtain ⟨hctx, _, hev⟩ := h
                    exact ⟨xs, rfl, by rw [← hctx, ← hev]⟩

theorem execCall_trace {funcs : Funcs} {oracle : Oracle} {ctx : Ctx} {c : Call}
    {ctx' : Ctx} {ret : Value} {ev : Event} {acc : List Value}
    (hacc : ctxGet ctx ALL_RESULTS_VARIABLE = some (.vlist acc))
    (h : execCall funcs oracle ctx c = .ok (ctx', ret, ev)) :
    ctxGet ctx' ALL_RESULTS_VARIABLE = some (.vlist (acc ++ [encodeEvent ev])) := by
  obtain ⟨xs, hxs, rfl⟩ := execCall_ok h
  rw [hacc] at hxs
  injection hxs with hxs
  injection hxs with hxs
  rw [← hxs]
  exact ctxGet_ctxSet_same _ _ _

theorem execCall_preserve {funcs : Funcs} {oracle : Oracle} {ctx : Ctx} {c : Call}
    {ctx' : Ctx} {ret : Value} {ev : Event} {k : String}
    (hk : k ≠ ALL_RESULTS_VARIABLE)
    (h : execCall funcs oracle ctx c = .ok (ctx', ret, ev)) :
    ctxGet ctx' k = ctxGet ctx k := by
  obtain ⟨xs, _, rfl⟩ := execCall_ok h
  exact ctxGet_ctxSet_ne _ _ _ _ (fun hh => hk hh.symm)

theorem execCalls_trace {funcs : Funcs} {oracle : Oracle} :
    ∀ (cs : List Call) (ctx ctx' : Ctx) (evs : List Event) (acc : List Value),
      ctxGet ctx ALL_RESULTS_VARIABLE = some (.vlist acc) →
      execCalls funcs oracle cs ctx = .ok (ctx', evs) →
      ctxGet ctx' ALL_RESULTS_VARIABLE = some (.vlist (acc ++ evs.map encodeEvent)) := by
  intro cs
  induction cs with
  | nil =>
      intro ctx ctx' evs acc hacc h
      simp only [execCalls] at h
      injection h with h
      obtain ⟨h1, h2⟩ := Prod.mk.inj h
      subst h1; subst h2
      simpa using hacc
  | cons c cs ih =>
      intro ctx ctx' evs acc hacc h
      simp only [execCalls] at h
      cases hc : execCall funcs oracle ctx c with
      | error e => simp [hc] at h
      | ok tr =>
          obtain ⟨ctx₁, r₁, ev₁⟩ := tr
          simp only [hc, exceptBind_ok] at h
          cases hcs : execCalls funcs oracle cs ctx₁ with
          | error e => simp [hcs] at h
          | ok pr =>
              obtain ⟨ctx₂, evs₂⟩ := pr
              simp only [hcs, exceptBind_ok] at h
              injection h with h
              obtain ⟨h1, h2⟩ := Prod.mk.inj h
              subst h1; subst h2
              have h₁ := execCall_trace hacc hc
              have h₂ := ih ctx₁ ctx₂ evs₂ (acc ++ [encodeEvent ev₁]) h₁ hcs
              simpa using h₂

theorem execCalls_preserve {funcs : Funcs} {oracle : Oracle} :
    ∀ (cs : List Call) (ctx ctx' : Ctx) (evs : List Event) (k : String),
      k ≠ ALL_RESULTS_VARIABLE →
      execCalls funcs oracle cs ctx = .ok (ctx', evs) →
      ctxGet ctx' k = ctxGet ctx k := by
  intro cs
  induction cs with
  | nil =>
      intro ctx ctx' evs k hk h
      simp only [execCalls] at h
      injection h with h
      obtain ⟨rfl, rfl⟩ := Prod.mk.inj h
      rfl
  | cons c cs ih =>
      intro ctx ctx' evs k hk h
      simp only [execCalls] at h
      cases hc : execCall funcs oracle ctx c with
      | error e => simp [hc] at h
      | ok tr =>
          obtain ⟨ctx₁, r₁, ev₁⟩ := tr
          simp only [hc, exceptBind_ok] at h
          cases hcs : execCalls funcs oracle cs ctx₁ with
          | error e => simp [hcs] at h
          | ok pr =>
              obtain ⟨ctx₂, evs₂⟩ := pr
              simp only [hcs, exceptBind_ok] at h
              injection h with h
              obtain ⟨h1, h2⟩ := Prod.mk.inj h
              subst h1; subst h2
              rw [ih ctx₁ ctx₂ evs₂ k hk hcs, execCall_preserve hk hc]

theorem okTriple_inj {α β γ : Type} {a a' : α} {b b' : β} {c c' : γ}
    (h : (Except.ok (a, b, c) : Except PyErr (α × β × γ)) = .ok (a', b', c')) :
    a = a' ∧ b = b' ∧ c = c' := by
  injection h with h
  obtain ⟨h1, h23⟩ := Prod.mk.inj h
  obtain ⟨h2, h3⟩ := Prod.mk.inj h23
  exact ⟨h1, h2, h3⟩

theorem okPair_inj {α β : Type} {a a' : α} {b b' : β}
    (h : (Except.ok (a, b) : Except PyErr (α × β)) = .ok (a', b')) :
    a = a' ∧ b = b' := by
  injection h with h
  exact Prod.mk.inj h

theorem execCondBlock_trace {funcs : Funcs} {oracle : Oracle} {ctx : Ctx}
    {chain : Option Bool} {cb : CondBlock} {ctx' : Ctx} {evs : List Event}
    {chain' : Option Bool} {acc : List Value}
    (hacc : ctxGet ctx ALL_RESULTS_VARIABLE = some (.vlist acc))
    (h : execCondBlock funcs oracle ctx chain cb = .ok (ctx', evs, chain')) :
    ctxGet ctx' ALL_RESULTS_VARIABLE = some (.vlist (acc ++ evs.map encodeEvent)) := by
  obtain ⟨kind, cond, body⟩ := cb
  cases kind with
  | cif =>
      simp only [execCondBlock] at h
      cases hv : evalPyExpr oracle ctx cond with
      | error e => simp [hv] at h
      | ok v =>
          simp only [hv, exceptBind_ok] at h
          by_cases ht : pyTruthy v
          · simp only [ht, if_pos] at h
            cases hec : execCalls funcs oracle body ctx with
            | error e => simp [hec] at h
            | ok pr =>
                obtain ⟨ctx₂, evs₂⟩ := pr
                simp only [hec, exceptBind_ok] at h
                obtain ⟨h1, h2, h3⟩ := okTriple_inj h
                subst h1; subst h2
                exact execCalls_trace body ctx ctx₂ evs₂ acc hacc hec
          · simp only [ht, if_neg, Bool.false_eq_true, not_false_eq_true] at h
            obtain ⟨h1, h2, h3⟩ := okTriple_inj h
            subst h1; subst h2
            simpa using hacc
  | celif =>
      simp only [execCondBlock] at h
      match chain with
      | some true =>
          obtain ⟨h1, h2, h3⟩ := okTriple_inj h
          subst h1; subst h2
          simpa using hacc
      | none =>
          obtain ⟨h1, h2, h3⟩ := okTriple_inj h
          subst h1; subst h2
          simpa using hacc
      | some false =>
          cases hv : evalPyExpr oracle ctx cond with
          | error e => simp [hv] at h
          | ok v =>
              simp only [hv, exceptBind_ok] at h
              by_cases ht : pyTruthy v
              · simp only [ht, if_pos] at h
                cases hec : execCalls funcs oracle body ctx with
                | error e => simp [hec] at h
                | ok pr =>
                    obtain ⟨ctx₂, evs₂⟩ := pr
                    simp only [hec, exceptBind_ok] at h
                    obtain ⟨h1, h2, h3⟩ := okTriple_inj h
                    subst h1; subst h2
                    exact execCalls_trace body ctx ctx₂ evs₂ acc hacc hec
              · simp only [ht, if_neg, Bool.false_eq_true, not_false_eq_true] at h
                obtain ⟨h1, h2, h3⟩ := okTriple_inj h
                subst h1; subst h2
                simpa using hacc
  | celse =>
      simp only [execCondBlock] at h
      match chain with
      | some false =>
          cases hec : execCalls funcs oracle body ctx with
          | error e => simp [hec] at h
          | ok pr =>
              obtain ⟨ctx₂, evs₂⟩ := pr
              simp only [hec, exceptBind_ok] at h
              obtain ⟨h1, h2, h3⟩ := okTriple_inj h
              subst h1; subst h2
              exact execCalls_trace body ctx ctx₂ evs₂ acc hacc hec
      | some true =>
          obtain ⟨h1, h2, h3⟩ := okTriple_inj h
          subst h1; subst h2
          simpa using hacc
      | none =>
          obtain ⟨h1, h2, h3⟩ := okTriple_inj h
          subst h1; subst h2
          simpa using hacc

theorem execFStmts_trace {funcs : Funcs} {oracle : Oracle} :
    ∀ (sts : List FStmt) (ctx ctx' : Ctx) (chain : Option Bool) (evs : List Event)
      (acc : List Value),
      ctxGet ctx ALL_RESULTS_VARIABLE = some (.vlist acc) →
      execFStmts funcs oracle sts ctx chain = .ok (ctx', evs) →
      ctxGet ctx' ALL_RESULTS_VARIABLE = some (.vlist (acc ++ evs.map encodeEvent)) := by
  intro sts
  induction sts with
  | nil =>
      intro ctx ctx' chain evs acc hacc h
      simp only [execFStmts] at h
      obtain ⟨h1, h2⟩ := okPair_inj h
      subst h1; subst h2
      simpa using hacc
  | cons st rest ih =>
      intro ctx ctx' chain evs acc hacc h
      cases st with
      | call c =>
          simp only [execFStmts] at h
          cases hc : execCall funcs oracle ctx c with
          | error e => simp [hc] at h
          | ok tr =>
              obtain ⟨ctx₁, r₁, ev₁⟩ := tr
              simp only [hc, exceptBind_ok] at h
              cases hrest : execFStmts funcs oracle rest ctx₁ none with
              | error e => simp [hrest] at h
              | ok pr =>
                  obtain ⟨ctx₂, evs₂⟩ := pr
                  simp only [hrest, exceptBind_ok] at h
                  obtain ⟨h1, h2⟩ := okPair_inj h
                  subst h1; subst h2
                  have h₁ := execCall_trace hacc hc
                  have h₂ := ih ctx₁ ctx₂ none evs₂ (acc ++ [encodeEvent ev₁]) h₁ hrest
                  simpa using h₂
      | cond cb =>
          simp only [execFStmts] at h
          cases hcb : execCondBlock funcs oracle ctx chain cb with
          | error e => simp [hcb] at h
          | ok tr =>
              obtain ⟨ctx₁, evs₁, chain₁⟩ := tr
              simp only [hcb, exceptBind_ok] at h
              cases hrest : execFStmts funcs oracle rest ctx₁ chain₁ with
              | error e => simp [hrest] at h
              | ok pr =>
                  obtain ⟨ctx₂, evs₂⟩ := pr
                  simp only [hrest, exceptBind_ok] at h
                  obtain ⟨h1, h2⟩ := okPair_inj h
                  subst h1; subst h2
                  have h₁ := execCondBlock_trace hacc hcb
                  have h₂ := ih ctx₁ ctx₂ chain₁ evs₂ (acc ++ evs₁.map encodeEvent) h₁ hrest
                  simpa using h₂

theorem execForeach1Elems_trace {funcs : Funcs} {oracle : Oracle} {v : String}
    {body : List FStmt} (hv : v ≠ ALL_RESULTS_VARIABLE) :
    ∀ (elems : List Value) (ctx ctx' : Ctx) (evs : List Event) (acc : List Value),
      ctxGet ctx ALL_RESULTS_VARIABLE = some (.vlist acc) →
      execForeach1Elems funcs oracle v body elems ctx = .ok (ctx', evs) →
      ctxGet ctx' ALL_RESULTS_VARIABLE = some (.vlist (acc ++ evs.map encodeEvent)) := by
  intro elems
  induction elems with
  | nil =>
      intro ctx ctx' evs acc hacc h
      simp only [execForeach1Elems] at h
      obtain ⟨h1, h2⟩ := okPair_inj h
      subst h1; subst h2
      simpa using hacc
  | cons x rest ih =>
      intro ctx ctx' evs acc hacc h
      simp only [execForeach1Elems] at h
      have hacc₁ : ctxGet (ctxSet ctx v (wrapIfDict x)) ALL_RESULTS_VARIABLE =
          some (.vlist acc) := by
        rw [ctxGet_ctxSet_ne _ _ _ _ hv]; exact hacc
      cases hb : execFStmts funcs oracle body (ctxSet ctx v (wrapIfDict x))
          (some (isDictV x)) with
      | error e => simp [hb] at h
      | ok pr =>
          obtain ⟨ctx₁, evs₁⟩ := pr
          simp only [hb, exceptBind_ok] at h
          cases hrest : execForeach1Elems funcs oracle v body rest ctx₁ with
          | error e => simp [hrest] at h
          | ok pr₂ =>
              obtain ⟨ctx₂, evs₂⟩ := pr₂
              simp only [hrest, exceptBind_ok] at h
              obtain ⟨h1, h2⟩ := okPair_inj h
              subst h1; subst h2
              have h₁ := execFStmts_trace body _ ctx₁ _ evs₁ acc hacc₁ hb
              have h₂ := ih ctx₁ ctx₂ evs₂ (acc ++ evs₁.map encodeEvent) h₁ hrest
              simpa using h₂

theorem execForeach2Elems_trace {funcs : Funcs} {oracle : Oracle} {k v : String}
    {body : List FStmt} (hk : k ≠ ALL_RESULTS_VARIABLE) (hv : v ≠ ALL_RESULTS_VARIABLE) :
    ∀ (elems : List (String × Value)) (ctx ctx' : Ctx) (evs : List Event)
      (acc : List Value),
      ctxGet ctx ALL_RESULTS_VARIABLE = some (.vlist acc) →
      execForeach2Elems funcs oracle k v body elems ctx = .ok (ctx', evs) →
      ctxGet ctx' ALL_RESULTS_VARIABLE = some (.vlist (acc ++ evs.map encodeEvent)) := by
  intro elems
  induction elems with
  | nil =>
      intro ctx ctx' evs acc hacc h
      simp only [execForeach2Elems] at h
      obtain ⟨h1, h2⟩ := okPair_inj h
      subst h1; subst h2
      simpa using hacc
  | cons p rest ih =>
      obtain ⟨key, val⟩ := p
      intro ctx ctx' evs acc hacc h
      simp only [execForeach2Elems] at h
      have hacc₁ : ctxGet (ctxSet (ctxSet ctx k (.vstr key)) v (wrapIfDict val))
          ALL_RESULTS_VARIABLE = some (.vlist acc) := by
        rw [ctxGet_ctxSet_ne _ _ _ _ hv, ctxGet_ctxSet_ne _ _ _ _ hk]; exact hacc
      cases hb : execFStmts funcs oracle body
          (ctxSet (ctxSet ctx k (.vstr key)) v (wrapIfDict val)) (some (isDictV val)) with
      | error e => simp [hb] at h
      | ok pr =>
          obtain ⟨ctx₁, evs₁⟩ := pr
          simp only [hb, exceptBind_ok] at h
          cases hrest : execForeach2Elems funcs oracle k v body rest ctx₁ with
          | error e => simp [hrest] at h
          | ok pr₂ =>
              obtain ⟨ctx₂, evs₂⟩ := pr₂
              simp only [hrest, exceptBind_ok] at h
              obtain ⟨h1, h2⟩ := okPair_inj h
              subst h1; subst h2
              have h₁ := execFStmts_trace body _ ctx₁ _ evs₁ acc hacc₁ hb
              have h₂ := ih ctx₁ ctx₂ evs₂ (acc ++ evs₁.map encodeEvent) h₁ hrest
              simpa using h₂

theorem foreach1_finish {funcs : Funcs} {oracle : Oracle} {v : String} {body : List FStmt}
    {elems : List Value} {ctx ctx' : Ctx} {evs : List Event} {c0 chain' : Option Bool}
    {acc : List Value}
    (hv : v ≠ ALL_RESULTS_VARIABLE)
    (hacc : ctxGet ctx ALL_RESULTS_VARIABLE = some (.vlist acc))
    (h : (do
        let (ctx₁, evs₁) ← execForeach1Elems funcs oracle v body elems ctx
        Except.ok (ctx₁, evs₁, c0) : Except PyErr (Ctx × List Event × Option Bool)) =
      .ok (ctx', evs, chain')) :
    ctxGet ctx' ALL_RESULTS_VARIABLE = some (.vlist (acc ++ evs.map encodeEvent)) := by
  cases hl : execForeach1Elems funcs oracle v body elems ctx with
  | error e => simp [hl] at h
  | ok pr =>
      obtain ⟨ctx₁, evs₁⟩ := pr
      simp only [hl, exceptBind_ok] at h
      obtain ⟨h1, h2, h3⟩ := okTriple_inj h
      subst h1; subst h2
      exact execForeach1Elems_trace hv elems ctx ctx₁ evs₁ acc hacc hl

theorem execClause_trace {funcs : Funcs} {oracle : Oracle} {cl : Clause} {ctx : Ctx}
    {chain : Option Bool} {ctx' : Ctx} {evs : List Event} {chain' : Option Bool}
    {acc : List Value}
    (hb : ALL_RESULTS_VARIABLE ∉ clauseBinders cl)
    (hacc : ctxGet ctx ALL_RESULTS_VARIABLE = some (.vlist acc))
    (h : execClause funcs oracle ctx chain cl = .ok (ctx', evs, chain')) :
    ctxGet ctx' ALL_RESULTS_VARIABLE = some (.vlist (acc ++ evs.map encodeEvent)) := by
  cases cl with
  | cond cb => exact execCondBlock_trace hacc h
  | foreach1 v body =>
      have hv : v ≠ ALL_RESULTS_VARIABLE := by
        simp [clauseBinders] at hb; exact fun hh => hb hh.symm
      simp only [execClause] at h
      cases hres : ctxGet ctx PRIMARY_RESULT_VARIABLE with
      | none => simp [hres] at h
      | some r =>
          simp only [hres, exceptBind_ok] at h
          cases r with
          | vset xs =>
              simp only [iterValues, exceptBind_ok] at h
              refine foreach1_finish hv ?_ h
              rw [ctxGet_ctxSet_ne _ _ _ _ (by decide)]; exact hacc
          | vlist xs =>
              simp only [iterValues, exceptBind_ok] at h
              exact foreach1_finish hv hacc h
          | vdict es =>
              simp only [iterValues, exceptBind_ok] at h
              exact foreach1_finish hv hacc h
          | vattrdict es =>
              simp only [iterValues, exceptBind_ok] at h
              exact foreach1_finish hv hacc h
          | vstr s =>
              simp only [iterValues, exceptBind_ok] at h
              exact foreach1_finish hv hacc h
          | vnone => simp [iterValues] at h
          | vbool b => simp [iterValues] at h
          | vint n => simp [iterValues] at h
  | foreach2 k v body =>
      have hkv : k ≠ ALL_RESULTS_VARIABLE ∧ v ≠ ALL_RESULTS_VARIABLE := by
        simp [clauseBinders] at hb
        exact ⟨fun hh => hb.1 hh.symm, fun hh => hb.2 hh.symm⟩
      simp only [execClause] at h
      cases hres : ctxGet ctx PRIMARY_RESULT_VARIABLE with
      | none => simp [hres] at h
      | some r =>
          simp only [hres, exceptBind_ok] at h
          cases r with
          | vdict es =>
              simp only at h
              have hacc₂ : ctxGet (ctxSet ctx PRIMARY_RESULT_VARIABLE
                  (.vattrdict es)) ALL_RESULTS_VARIABLE = some (.vlist acc) := by
                rw [ctxGet_ctxSet_ne _ _ _ _ (by decide)]; exact hacc
              cases hl : execForeach2Elems funcs oracle k v body (sortPairs es)
                  (ctxSet ctx PRIMARY_RESULT_VARIABLE (.vattrdict es)) with
              | error e => simp [hl] at h
              | ok pr =>
                  obtain ⟨ctx₁, evs₁⟩ := pr
                  simp only [hl, exceptBind_ok] at h
                  obtain ⟨h1, h2, h3⟩ := okTriple_inj h
                  subst h1; subst h2
                  exact execForeach2Elems_trace hkv.1 hkv.2 (sortPairs es) _ ctx₁ evs₁
                    acc hacc₂ hl
          | vattrdict es =>
              simp only at h
              have hacc₂ : ctxGet (ctxSet ctx PRIMARY_RESULT_VARIABLE
                  (.vattrdict es)) ALL_RESULTS_VARIABLE = some (.vlist acc) := by
                rw [ctxGet_ctxSet_ne _ _ _ _ (by decide)]; exact hacc
              cases hl : execForeach2Elems funcs oracle k v body (sortPairs es)
                  (ctxSet ctx PRIMARY_RESULT_VARIABLE (.vattrdict es)) with
              | error e => simp [hl] at h
              | ok pr =>
                  obtain ⟨ctx₁, evs₁⟩ := pr
                  simp only [hl, exceptBind_ok] at h
                  obtain ⟨h1, h2, h3⟩ := okTriple_inj h
                  subst h1; subst h2
                  exact execForeach2Elems_trace hkv.1 hkv.2 (sortPairs es) _ ctx₁ evs₁
                    acc hacc₂ hl
          | vnone => simp at h
          | vbool b => simp at h
          | vint n => simp at h
          | vstr s => simp at h
          | vlist xs => simp at h
          | vset xs => simp at h

theorem execClauses_trace {funcs : Funcs} {oracle : Oracle} :
    ∀ (cls : List Clause) (ctx ctx' : Ctx) (chain : Option Bool) (evs : List Event)
      (acc : List Value),
      ALL_RESULTS_VARIABLE ∉ (cls.map clauseBinders).flatten →
      ctxGet ctx ALL_RESULTS_VARIABLE = some (.vlist acc) →
      execClauses funcs oracle cls ctx chain = .ok (ctx', evs) →
      ctxGet ctx' ALL_RESULTS_VARIABLE = some (.vlist (acc ++ evs.map encodeEvent)) := by
  intro cls
  induction cls with
  | nil =>
      intro ctx ctx' chain evs acc _ hacc h
      simp only [execClauses] at h
      obtain ⟨h1, h2⟩ := okPair_inj h
      subst h1; subst h2
      simpa using hacc
  | cons cl cls ih =>
      intro ctx ctx' chain evs acc hb hacc h
      simp only [List.map_cons, List.flatten_cons, List.mem_append] at hb
      push_neg at hb
      simp only [execClauses] at h
      cases hcl : execClause funcs oracle ctx chain cl with
      | error e => simp [hcl] at h
      | ok tr =>
          obtain ⟨ctx₁, evs₁, chain₁⟩ := tr
          simp only [hcl, exceptBind_ok] at h
          cases hrest : execClauses funcs oracle cls ctx₁ chain₁ with
          | error e => simp [hrest] at h
          | ok pr =>
              obtain ⟨ctx₂, evs₂⟩ := pr
              simp only [hrest, exceptBind_ok] at h
              obtain ⟨h1, h2⟩ := okPair_inj h
              subst h1; subst h2
              have h₁ := execClause_trace hb.1 hacc hcl
              have h₂ := ih ctx₁ ctx₂ chain₁ evs₂ (acc ++ evs₁.map encodeEvent) hb.2 h₁ hrest
              simpa using h₂

/-- The generated module's `task_results` log after one full plan
execution is exactly the encoded event list, in execution order —
provided no `foreach` loop variable shadows `task_results`. -/
theorem execPlan_trace {funcs : Funcs} {oracle : Oracle} {p : Plan} {ctx ctx' : Ctx}
    {evs : List Event}
    (hb : ALL_RESULTS_VARIABLE ∉ planBinders p)
    (h : execPlan funcs oracle p ctx = .ok (ctx', evs)) :
    ctxGet ctx' ALL_RESULTS_VARIABLE = some (.vlist (evs.map encodeEvent)) := by
  simp only [execPlan] at h
  have hacc₀ : ctxGet (ctxSet ctx ALL_RESULTS_VARIABLE (.vlist []))
      ALL_RESULTS_VARIABLE = some (.vlist []) := ctxGet_ctxSet_same _ _ _
  cases hc : execCall funcs oracle (ctxSet ctx ALL_RESULTS_VARIABLE (.vlist []))
      p.primary with
  | error e => simp [hc] at h
  | ok tr =>
      obtain ⟨ctx₁, ret, ev⟩ := tr
      simp only [hc, exceptBind_ok] at h
      have h₁ := execCall_trace hacc₀ hc
      have h₂ : ctxGet (ctxSet ctx₁ PRIMARY_RESULT_VARIABLE ret) ALL_RESULTS_VARIABLE =
          some (.vlist [encodeEvent ev]) := by
        rw [ctxGet_ctxSet_ne _ _ _ _ (by decide)]
        simpa using h₁
      cases hcls : execClauses funcs oracle p.clauses
          (ctxSet ctx₁ PRIMARY_RESULT_VARIABLE ret) none with
      | error e => simp [hcls] at h
      | ok pr =>
          obtain ⟨ctx₂, evs₂⟩ := pr
          simp only [hcls, exceptBind_ok] at h
          obtain ⟨h1, h2⟩ := okPair_inj h
          subst h1; subst h2
          have h₃ := execClauses_trace p.clauses _ ctx₂ none evs₂ [encodeEvent ev] hb h₂ hcls
          simpa using h₃

/-- In a successful call, the recorded event's return component is the
call's return value. -/
theorem execCall_ok_ret {funcs : Funcs} {oracle : Oracle} {ctx : Ctx} {c : Call}
    {ctx' : Ctx} {ret : Value} {ev : Event}
    (h : execCall funcs oracle ctx c = .ok (ctx', ret, ev)) : ev.2.2 = ret := by
  simp only [execCall] at h
  cases hargs : evalArgs oracle ctx c.args with
  | error e => simp [hargs] at h
  | ok args =>
      simp only [hargs, exceptBind_ok] at h
      cases hf : funcs c.cmd with
      | none => simp [hf] at h
      | some f =>
          simp only [hf] at h
          cases hr : f args with
          | error e => simp [hr] at h
          | ok r =>
              simp only [hr, exceptBind_ok] at h
              cases har : ctxGet ctx ALL_RESULTS_VARIABLE with
              | none => simp [har] at h
              | some v =>
                  cases v <;> simp [har] at h
                  case vlist xs =>
                    obtain ⟨_, hret, hev⟩ := h
                    rw [← hev, ← hret]

/-! ## Symbolic expansion of a single `$ident` reference -/

theorem tokenize_simple (c : Char) (cs : List Char)
    (hc : identStartChar c = true) (hw : ∀ x ∈ cs, isWordChar x) :
    tokenize ('$' :: c :: cs) = [.simpleRef (c :: cs)] := by
  simp [tokenize, tokenizeF, hc, spanWord_all_word cs hw]

theorem expandRefsL_simple (c : Char) (cs : List Char)
    (hc : identStartChar c = true) (hw : ∀ x ∈ cs, isWordChar x) :
    expandRefsL ('$' :: c :: cs) true = .bare (String.mk (c :: cs)) := by
  have hq : isQuoteChar '$' = false := by decide
  simp [expandRefsL, hq, tokenize_simple c cs hc hw, foldToks]

theorem expandRefsL_simple_quoted (c : Char) (cs : List Char)
    (hc : identStartChar c = true) (hw : ∀ x ∈ cs, isWordChar x) :
    expandRefsL (sqChar :: '$' :: c :: (cs ++ [sqChar])) true =
      .strCast (String.mk (c :: cs)) := by
  have hq : isQuoteChar sqChar = true := by decide
  have hlast : ('$' :: c :: (cs ++ [sqChar])).getLast? = some sqChar := by
    rw [show ('$' :: c :: (cs ++ [sqChar])) = ('$' :: c :: cs) ++ [sqChar] by simp]
    exact List.getLast?_concat _
  have hdrop : ('$' :: c :: (cs ++ [sqChar])).dropLast = '$' :: c :: cs := by
    rw [show ('$' :: c :: (cs ++ [sqChar])) = ('$' :: c :: cs) ++ [sqChar] by simp]
    exact List.dropLast_concat
  simp [expandRefsL, hq, hlast, hdrop, tokenize_simple c cs hc hw, foldToks]

theorem isPyIdent_mk (c : Char) (cs : List Char)
    (hc : identStartChar c = true) (hw : ∀ x ∈ cs, isWordChar x) :
    isPyIdent (String.mk (c :: cs)) = true := by
  simp [isPyIdent, hc, List.all_eq_true]
  exact hw

/-! ## Concrete fixtures used by the claim theorems -/

/-- An oracle that rejects every non-identifier expression (the claims
below evaluate identifier references only). -/
def oracle0 : Oracle := fun _ _ => .error (.valueError "unsupported expression")

def parserEx : Parser := ⟨["test.ping", "status.diskusage"], defaultIntervalDict, 7⟩

def entryPing : TaskDict := [("run", .ystr "test.ping")]
def entryNoRun : TaskDict := [("every", .ymap [("second", .ynum 5)])]
def entryBadCmd : TaskDict := [("run", .ystr "nosuch.fn")]
def entryBadRef : TaskDict := [("run", .ystr "test.ping 'oops")]
def entryBadTiming : TaskDict := [("run", .ystr "test.ping"), ("at", .ymap [])]
def entryBadForeach : TaskDict :=
  [("run", .ystr "test.ping"), ("foreach a, b, c", .ylist [])]

def funcsBoom : Funcs := fun s =>
  if s = "test.boom" then some (fun _ => .error (.valueError "boom")) else none

def planBoom : Plan := ⟨⟨"test.boom", []⟩, []⟩

def taskBoom : MonitorTask := ⟨"monitor-1", planBoom, 0, .interval defaultIntervalDict⟩

def funcsC4 : Funcs := fun s =>
  if s = "p.one" then some (fun _ => .ok (.vdict [("a", .vint 1)]))
  else if s = "p.two" then some (fun _ => .ok (.vint 2))
  else none

def planC4 : Plan := ⟨⟨"p.one", []⟩, [.foreach2 "k" "v" [.call ⟨"p.two", []⟩]]⟩

def planPrim : Plan := ⟨⟨"p.two", []⟩, []⟩

def funcsC5 : Funcs := fun s =>
  if s = "p.one" then some (fun _ => .ok (.vdict [("b", .vint 2), ("a", .vint 1)]))
  else if s = "test.echo" then some (fun _ => .ok .vnone)
  else none

def planC5 : Plan :=
  ⟨⟨"p.one", []⟩, [.foreach2 "k" "v" [.call ⟨"test.echo", [.bare "k", .bare "v"]⟩]]⟩

def funcsC6 : Funcs := fun s =>
  if s = "alert.send" then some (fun _ => .ok .vnone) else none

def ctxC6 : Ctx := [("fs", .vstr "/"), (ALL_RESULTS_VARIABLE, .vlist [])]

def lineC6 : String := "alert.send 'disk usage is above 90% on $fs'"

def callC6 : Call := ⟨"alert.send", [.fmtCall "disk usage is above 90% on {}" ["fs"]]⟩

/-! ## Claim theorems -/

/-- C1: the claim says every compile-time failure — missing `run`,
unknown command, malformed reference, malformed timing — skips only its
own entry.  The code violates this for missing `run`: `taskdict['run']`
raises `KeyError`, and `_expand_tasks` catches only `ValueError`, so the
whole catalog compilation aborts and no task is produced.  The theorem
evaluates the code at the failing catalog (second conjunct shows the
other three failure kinds do skip only their entry). -/
theorem C1_missing_run_aborts_catalog :
    expand_tasks parserEx [entryPing, entryNoRun, entryPing] = .error (.keyError "run") ∧
    (expand_tasks parserEx
        [entryPing, entryBadCmd, entryBadRef, entryBadTiming, entryPing]).map
      (fun ts => ts.map (fun t => t.taskid)) = .ok ["monitor-1", "monitor-5"] :=
  ⟨rfl, rfl⟩

/-- C2: the claim says an exception during plan execution is caught,
logged with the task id, and the task continues.  In the code the
handler's log call reads `self.cmdid`, an attribute `MonitorTask`
never defines, so the handler raises `AttributeError` and the task
thread dies without logging the task id (the spec itself flags this in
§9).  First conjunct: any failing iteration ends in
`AttributeError('cmdid')`; second: concrete evaluation. -/
theorem C2_failed_iteration_raises_attributeError :
    (∀ (funcs : Funcs) (oracle : Oracle) (t : MonitorTask)
        (ret : Option (Value → Except PyErr Value)) (ctx : Ctx) (e : PyErr),
        execPlan funcs oracle t.plan ctx = .error e →
        runIteration funcs oracle t ret ctx = .error (.attributeError "cmdid")) ∧
    runIteration funcsBoom oracle0 taskBoom none [] = .error (.attributeError "cmdid") := by
  constructor
  · intro funcs oracle t ret ctx e h
    simp [runIteration, h, taskAttrNames]
  · rfl

/-- C2 witness: the universally quantified conjunct applied to the
concrete failing task. -/
theorem C2_witness :
    runIteration funcsBoom oracle0 taskBoom none [] = .error (.attributeError "cmdid") :=
  C2_failed_iteration_raises_attributeError.1 funcsBoom oracle0 taskBoom none []
    (.valueError "boom") rfl

/-- C3: `task_results` is reset to the empty list at the start of every
iteration, before the primary probe runs.  First conjunct: executing a
plan is the same as executing it after resetting `task_results` to `[]`
(the generated module's first statement); second: at that entry state
the log reads `[]`; third: the iteration's outcome is independent of
whatever `task_results` held before. -/
theorem C3_task_results_reset :
    ∀ (funcs : Funcs) (oracle : Oracle) (p : Plan) (ctx : Ctx),
      execPlan funcs oracle p ctx =
        execPlan funcs oracle p (ctxSet ctx ALL_RESULTS_VARIABLE (.vlist [])) ∧
      ctxGet (ctxSet ctx ALL_RESULTS_VARIABLE (.vlist [])) ALL_RESULTS_VARIABLE =
        some (.vlist []) ∧
      ∀ w, execPlan funcs oracle p (ctxSet ctx ALL_RESULTS_VARIABLE w) =
        execPlan funcs oracle p ctx := by
  intro funcs oracle p ctx
  have key : ∀ w, execPlan funcs oracle p (ctxSet ctx ALL_RESULTS_VARIABLE w) =
      execPlan funcs oracle p ctx := by
    intro w
    simp only [execPlan, ctxSet_ctxSet]
  exact ⟨(key (.vlist [])).symm, ctxGet_ctxSet_same _ _ _, key⟩

/-- C4 (amended): every probe invocation executed by a plan appends its
`[[cmd, …args], return]` entry to `task_results` — the final log is
exactly the event trace — but only the primary `run` invocation binds
`result`; body invocations leave `result` unchanged. -/
theorem C4_invocations_append_only_primary_sets_result :
    (∀ (funcs : Funcs) (oracle : Oracle) (p : Plan) (ctx ctx' : Ctx) (evs : List Event),
        ALL_RESULTS_VARIABLE ∉ planBinders p →
        execPlan funcs oracle p ctx = .ok (ctx', evs) →
        ctxGet ctx' ALL_RESULTS_VARIABLE = some (.vlist (evs.map encodeEvent))) ∧
    (∀ (funcs : Funcs) (oracle : Oracle) (prim : Call) (ctx ctx' : Ctx)
        (evs : List Event),
        execPlan funcs oracle ⟨prim, []⟩ ctx = .ok (ctx', evs) →
        ∃ ev, evs = [ev] ∧
          ctxGet ctx' PRIMARY_RESULT_VARIABLE = some ev.2.2) ∧
    (∀ (funcs : Funcs) (oracle : Oracle) (ctx : Ctx) (c : Call)
        (out : Ctx × Value × Event),
        execCall funcs oracle ctx c = .ok out →
        ctxGet out.1 PRIMARY_RESULT_VARIABLE = ctxGet ctx PRIMARY_RESULT_VARIABLE) := by
  refine ⟨?_, ?_, ?_⟩
  · intro funcs oracle p ctx ctx' evs hb h
    exact execPlan_trace hb h
  · intro funcs oracle prim ctx ctx' evs h
    simp only [execPlan] at h
    cases hc : execCall funcs oracle (ctxSet ctx ALL_RESULTS_VARIABLE (.vlist []))
        prim with
    | error e => simp [hc] at h
    | ok tr =>
        obtain ⟨ctx₁, ret, ev⟩ := tr
        simp only [hc, exceptBind_ok, execClauses] at h
        obtain ⟨h1, h2⟩ := okPair_inj h
        subst h1; subst h2
        refine ⟨ev, rfl, ?_⟩
        rw [execCall_ok_ret hc]
        exact ctxGet_ctxSet_same _ _ _
  · intro funcs oracle ctx c out h
    obtain ⟨ctx', ret, ev⟩ := out
    exact execCall_preserve (by decide) h

/-- C4 counterexample: in the plan `planC4` the `foreach` body's probe
returns `2`, yet after the iteration `result` is the (wrapped) primary
return, not `2` — so a body invocation does not set `result`, refuting
the claim as stated. -/
theorem C4_counterexample :
    (execPlan funcsC4 oracle0 planC4 []).map
        (fun r => (ctxGet r.1 PRIMARY_RESULT_VARIABLE,
                   (r.2.map (fun e => e.2.2)).getLast?)) =
      .ok (some (.vattrdict [("a", .vint 1)]), some (.vint 2)) ∧
    some (Value.vattrdict [("a", .vint 1)]) ≠ some (Value.vint 2) :=
  ⟨rfl, fun h => Value.noConfusion (Option.some.inj h)⟩

/-- C4 witness: the trace conjunct applied to a concrete plan. -/
theorem C4_witness :
    ∃ ctx' evs, execPlan funcsC4 oracle0 planPrim [] = .ok (ctx', evs) ∧
      ctxGet ctx' ALL_RESULTS_VARIABLE = some (.vlist (evs.map encodeEvent)) := by
  refine ⟨_, _, rfl, ?_⟩
  exact C4_invocations_append_only_primary_sets_result.1 funcsC4 oracle0 planPrim []
    _ _ (by decide) rfl

/-- C5: `foreach k, v` raises `ValueError('result is not a dict')` at
run time when the primary result is not a mapping; when it is a
mapping, the body runs once per entry in ascending key order — the
concrete conjunct shows probe `{"b": 2, "a": 1}` producing bindings
`a→1` then `b→2`; the last conjunct shows the iteration order
(`sortPairs`) is a key-sorted permutation of the dict's entries. -/
theorem C5_foreach2_sorted_mapping :
    (∀ (funcs : Funcs) (oracle : Oracle) (k v : String) (body : List FStmt)
        (ctx : Ctx) (chain : Option Bool) (r : Value),
        ctxGet ctx PRIMARY_RESULT_VARIABLE = some r →
        isDictV r = false →
        execClause funcs oracle ctx chain (.foreach2 k v body) =
          .error (.valueError "result is not a dict")) ∧
    ((execPlan funcsC5 oracle0 planC5 []).map (fun r => r.2.map (fun e => e.2.1)) =
      .ok [[], [.vstr "a", .vint 1], [.vstr "b", .vint 2]]) ∧
    (∀ es : List (String × Value),
        (sortPairs es).Pairwise keyLe ∧ (sortPairs es).Perm es) := by
  refine ⟨?_, rfl, fun es => ⟨sortPairs_pairwise es, sortPairs_perm es⟩⟩
  intro funcs oracle k v body ctx chain r hres hnd
  simp only [execClause, hres, exceptBind_ok]
  cases r <;> simp_all [isDictV] <;> rfl

/-- C5 witness: the runtime-error conjunct applied to a non-mapping
primary result. -/
theorem C5_witness :
    execClause funcsC5 oracle0 [(PRIMARY_RESULT_VARIABLE, .vint 3)] none
      (.foreach2 "k" "v" []) = .error (.valueError "result is not a dict") :=
  C5_foreach2_sorted_mapping.1 funcsC5 oracle0 "k" "v" []
    [(PRIMARY_RESULT_VARIABLE, .vint 3)] none (.vint 3) rfl rfl

/-- C6: compiling `alert.send 'disk usage is above 90% on $fs'` yields
one argument — the format call on the quoted text — and executing it
with `fs` bound to `"/"` hands the agent function exactly one argument,
the string `disk usage is above 90% on /`. -/
theorem C6_quoted_reference_argument :
    expand_call ["alert.send"] (.ystr lineC6) = .ok callC6 ∧
    ∃ ctx' ret, execCall funcsC6 oracle0 ctxC6 callC6 =
      .ok (ctx', ret, ("alert.send", [.vstr "disk usage is above 90% on /"], ret)) :=
  ⟨rfl, _, _, rfl⟩

/-- C7 (as stated) is false: expanding the unquoted simple reference
`$v` in string mode takes the single-reference shortcut and yields the
bare reference, so evaluating against `{v: 2}` produces the integer `2`
itself, not `str(2) = "2"`. -/
theorem C7_counterexample :
    expandRefs "$v" true = .bare "v" ∧
    evalRefResult oracle0 [("v", .vint 2)] (expandRefs "$v" true) = .ok (.vint 2) ∧
    Value.vint 2 ≠ .vstr (pyStr (.vint 2)) :=
  ⟨rfl, rfl, fun h => Value.noConfusion h⟩

/-- C7 (amended): for every simple reference `$v`, string-mode
expansion plus evaluation against `{v: x}` produces `x` itself; the
expansion applies `str` only when the reference text is quoted
(`'$v'`), in which case it produces `str(x)`. -/
theorem C7_simple_reference_roundtrip (oracle : Oracle) (ctx : Ctx) (c : Char)
    (cs : List Char) (x : Value)
    (hc : identStartChar c = true) (hw : ∀ ch ∈ cs, isWordChar ch)
    (hbind : ctxGet ctx (String.mk (c :: cs)) = some x) :
    evalRefResult oracle ctx (expandRefsL ('$' :: c :: cs) true) = .ok x ∧
    evalRefResult oracle ctx (expandRefsL (sqChar :: '$' :: c :: (cs ++ [sqChar])) true) =
      .ok (.vstr (pyStr x)) := by
  rw [expandRefsL_simple c cs hc hw, expandRefsL_simple_quoted c cs hc hw]
  simp [evalRefResult, evalPyExpr, isPyIdent_mk c cs hc hw, hbind]

/-- C7 witness: the amended round-trip at `v` bound to the integer 5. -/
theorem C7_witness :
    evalRefResult oracle0 [("v", .vint 5)] (expandRefsL ('$' :: 'v' :: []) true) =
      .ok (.vint 5) ∧
    evalRefResult oracle0 [("v", .vint 5)]
        (expandRefsL (sqChar :: '$' :: 'v' :: ([] ++ [sqChar])) true) =
      .ok (.vstr (pyStr (.vint 5))) :=
  C7_simple_reference_roundtrip oracle0 [("v", .vint 5)] 'v' [] (.vint 5)
    (by decide) (by simp) rfl

/-- C8: the compiler selects interval mode from `every`, cron mode from
`at`, and with neither clause (and no configured override) falls back
to the daemon default interval `{'seconds': 10}` whose scheduler yields
10.0 seconds on every call. -/
theorem C8_scheduler_selection_and_default :
    (∀ (p : Parser) (td : TaskDict) (e : Yaml), tdLookup td "every" = some e →
        expand_scheduler p td = create_scheduler "interval" e) ∧
    (∀ (p : Parser) (td : TaskDict) (a : Yaml), tdLookup td "every" = none →
        tdLookup td "at" = some a →
        expand_scheduler p td = create_scheduler "cron" a) ∧
    (∀ (opts : List (String × Yaml)) (fns : List String) (addr : ℕ) (td : TaskDict),
        tdLookup opts "monitor.default_interval" = none →
        tdLookup td "every" = none → tdLookup td "at" = none →
        expand_scheduler ⟨fns, parserDefaultInterval opts, addr⟩ td =
          .ok (.interval defaultIntervalDict) ∧
        ∀ n, schedNext (.interval defaultIntervalDict) n = 10) := by
  refine ⟨?_, ?_, ?_⟩
  · intro p td e he
    simp [expand_scheduler, he]
  · intro p td a he ha
    simp [expand_scheduler, he, ha]
  · intro opts fns addr td hopts he ha
    constructor
    · simp [expand_scheduler, he, ha, parserDefaultInterval, hopts, create_scheduler]
    · intro n
      rfl

/-- C8 witness: the default-interval conjunct at a concrete bare entry. -/
theorem C8_witness :
    expand_scheduler ⟨["test.ping"], parserDefaultInterval [], 0⟩ entryPing =
      .ok (.interval defaultIntervalDict) ∧
    schedNext (.interval defaultIntervalDict) 3 = 10 := by
  have h := (C8_scheduler_selection_and_default.2.2 [] ["test.ping"] 0 entryPing
    rfl rfl rfl)
  exact ⟨h.1, h.2 3⟩

/-- C9 counterexample: the parser passes the one `self.context` it
built in `__init__` to every `MonitorTask`, so two distinct compiled
tasks hold the same context reference — no task has its own context. -/
theorem C9_counterexample :
    ∃ ts, expand_tasks parserEx [entryPing, entryPing] = .ok ts ∧
      ts.map (fun t => t.taskid) = ["monitor-1", "monitor-2"] ∧
      ts.map (fun t => t.contextAddr) = [7, 7] :=
  ⟨_, rfl, rfl, rfl⟩

/-- C9 (amended): every task a parser compiles shares that parser's
single context object — the context is constructed once per parser, not
once per task, and all tasks read and write the same dictionary. -/
theorem C9_tasks_share_parser_context :
    ∀ (p : Parser) (tds : List TaskDict) (ts : List MonitorTask),
      expand_tasks p tds = .ok ts →
      ∀ t ∈ ts, t.contextAddr = p.ctxAddr := by
  have key : ∀ (p : Parser) (n : ℕ) (tds : List TaskDict) (ts : List MonitorTask),
      expandTasksFrom p n tds = .ok ts → ∀ t ∈ ts, t.contextAddr = p.ctxAddr := by
    intro p n tds
    induction tds generalizing n with
    | nil =>
        intro ts h t ht
        simp only [expandTasksFrom] at h
        injection h with h
        subst h
        simp at ht
    | cons td rest ih =>
        intro ts h t ht
        simp only [expandTasksFrom] at h
        cases he : expandEntry p n td with
        | ok t0 =>
            simp only [he] at h
            cases hrest : expandTasksFrom p (n + 1) rest with
            | error e => simp [hrest] at h
            | ok ts' =>
                simp only [hrest, exceptMap_ok] at h
                injection h with h
                subst h
                rcases List.mem_cons.mp ht with rfl | ht'
                · simp only [expandEntry] at he
                  cases hplan : expand_task p.funcNames td with
                  | error e => simp [hplan] at he
                  | ok plan =>
                      simp only [hplan, exceptBind_ok] at he
                      cases hsched : expand_scheduler p td with
                      | error e => simp [hsched] at he
                      | ok sched =>
                          simp only [hsched, exceptBind_ok] at he
                          injection he with he
                          rw [← he]
                · exact ih (n + 1) ts' hrest t ht'
        | error e =>
            cases e with
            | valueError m =>
                simp only [he] at h
                exact ih (n + 1) ts h t ht
            | keyError k => simp [he] at h
            | nameError nm => simp [he] at h
            | attributeError a => simp [he] at h
            | typeError m => simp [he] at h
            | indexError => simp [he] at h
  intro p tds ts h
  exact key p 1 tds ts h

def taskC9a : MonitorTask :=
  ⟨"monitor-1", ⟨⟨"test.ping", []⟩, []⟩, 7, .interval defaultIntervalDict⟩

def taskC9b : MonitorTask :=
  ⟨"monitor-2", ⟨⟨"test.ping", []⟩, []⟩, 7, .interval defaultIntervalDict⟩

/-- C9 witness: the amended sharing statement applied to the first task
of the concrete two-entry catalog. -/
theorem C9_witness : taskC9a.contextAddr = parserEx.ctxAddr :=
  C9_tasks_share_parser_context parserEx [entryPing, entryPing] [taskC9a, taskC9b]
    rfl taskC9a (List.mem_cons_self taskC9a [taskC9b])

/-- C10: `foreach` accepts exactly one or two identifiers: an empty
parameter list and three or more parameters raise `ValueError` at
compile time, which skips only the enclosing catalog entry (last
conjunct: the surrounding entries still compile). -/
theorem C10_foreach_arity :
    (∀ (fns : List String) (value : Yaml),
        expand_foreach fns [] value = .error (.valueError "foreach missing parameter(s)")) ∧
    (∀ (fns : List String) (params : List String) (value : Yaml),
        3 ≤ params.length →
        ∃ m, expand_foreach fns params value = .error (.valueError m)) ∧
    expand_foreach ["test.ping"] ["v"] (.ylist []) = .ok (.foreach1 "v" []) ∧
    expand_foreach ["test.ping"] ["k", "v"] (.ylist []) = .ok (.foreach2 "k" "v" []) ∧
    (expand_tasks parserEx [entryPing, entryBadForeach, entryPing]).map
      (fun ts => ts.map (fun t => t.taskid)) = .ok ["monitor-1", "monitor-3"] := by
  refine ⟨fun fns value => rfl, ?_, rfl, rfl, rfl⟩
  intro fns params value h
  match params with
  | [] => simp at h
  | [a] => simp at h
  | [a, b] => simp at h
  | a :: b :: c :: rest => exact ⟨_, rfl⟩

/-- C10 witness: the arity conjunct at three parameters. -/
theorem C10_witness :
    ∃ m, expand_foreach ["test.ping"] ["a", "b", "c"] (.ylist []) =
      .error (.valueError m) :=
  C10_foreach_arity.2.1 ["test.ping"] ["a", "b", "c"] (.ylist []) (by decide)

end SaltMonitor
